import Mathlib

/-! DisplayOBJ: a verification development

A shallow embedding of `src/DisplayOBJ/DisplayOBJ.cpp` (OBJ loading, per-vertex
normals, triangle-to-edge conversion, colour generation and the per-frame
keyboard dispatch of the render loop) together with theorems about it.

Conventions of the embedding

* `std::vector<T>` is a `List T`; `push_back` appends at the end.
* `GLushort` is a `Nat` below `65536`; arithmetic on it is reduced `% 65536`.
* `float` scalars are kept abstract: the embedding is generic in the scalar type
  `F` the way `glm::vec<3, T>` is, with `glm::inversesqrt` (`InverseSqrt F`) and
  the stream extraction of a `float` (`FloatExtract F`) as parameters.
  Statements that need arithmetic facts say which facts they need.  Concrete
  runs use `Scalar`: exact rational numbers together with the infinities and
  NaN of IEEE arithmetic.  Colours and the literals of the transform commands
  are exact rationals.
* What the program takes from headers that are not part of it (GLFW key codes,
  `RAND_MAX`, `glm::translate`, `glm::rotate`) is a parameter.
* Reading an element outside a vector, or using a local that no extraction has
  assigned, is undefined behaviour: the embedding returns `Fault.undefined`.
* `exit(1)` is `Fault.exit 1`.
* Loop counters of type `int` range over vector sizes; they are `Nat` here
  (vectors shorter than `2^31` elements).
-/

namespace DisplayOBJ

/-! ## Data model -/

/-- A `glm::vec3` over the scalar type `F`. -/
structure Vec3 (F : Type) where
  x : F
  y : F
  z : F
deriving DecidableEq, Repr

/-- Ways a run stops without a result: `exit(status)` or undefined behaviour. -/
inductive Fault where
  | exit (status : Nat)
  | undefined
deriving DecidableEq, Repr

/-- Equality of results is decidable, so that closed statements about runs can be evaluated. -/
instance instDecidableEqExcept {ε α : Type} [DecidableEq ε] [DecidableEq α] :
    DecidableEq (Except ε α)
  | .ok a, .ok b => if h : a = b then isTrue (by rw [h]) else isFalse (by intro e; cases e; exact h rfl)
  | .error a, .error b =>
    if h : a = b then isTrue (by rw [h]) else isFalse (by intro e; cases e; exact h rfl)
  | .ok _, .error _ => isFalse (by intro e; cases e)
  | .error _, .ok _ => isFalse (by intro e; cases e)

/-! ## Render loop of `main` -/

/-- The key-code macros of `GLFW/glfw3.h` that `main` uses.  The header is not part of the
program, so the codes are a parameter of the embedding. -/
structure KeyCodes where
  GLFW_KEY_1 : Nat
  GLFW_KEY_2 : Nat
  GLFW_KEY_3 : Nat
  GLFW_KEY_4 : Nat
  GLFW_KEY_B : Nat
  GLFW_KEY_C : Nat
  GLFW_KEY_D : Nat
  GLFW_KEY_F : Nat
  GLFW_KEY_L : Nat
  GLFW_KEY_R : Nat
  GLFW_KEY_U : Nat
deriving DecidableEq, Repr

/-- The codes GLFW 3 gives these keys (printable keys have their ASCII codes); used for
concrete runs. -/
def glfw3 : KeyCodes :=
  { GLFW_KEY_1 := 49, GLFW_KEY_2 := 50, GLFW_KEY_3 := 51, GLFW_KEY_4 := 52,
    GLFW_KEY_B := 66, GLFW_KEY_C := 67, GLFW_KEY_D := 68, GLFW_KEY_F := 70,
    GLFW_KEY_L := 76, GLFW_KEY_R := 82, GLFW_KEY_U := 85 }

/-- The key cache `static bool keys[1024]` as seen by one frame. -/
abbrev Keys := Nat → Bool

/-- The call made on the model matrix in one frame: `glm::translate(model, v)` or
`glm::rotate(model, glm::radians(degrees), axis)`. -/
inductive Transform where
  | translate (v : Vec3 ℚ)
  | rotate (degrees : ℚ) (axis : Vec3 ℚ)
deriving DecidableEq, Repr

/-- The `if / else if` chain of lines 219-267: which transform, if any, this frame applies. -/
def transformDispatch (K : KeyCodes) (keys : Keys) (caps : Bool) : Option Transform :=
  if keys K.GLFW_KEY_L == true && !caps then some (.translate ⟨-0.01, 0.0, 0.0⟩)
  else if keys K.GLFW_KEY_R == true && !caps then some (.translate ⟨0.01, 0.0, 0.0⟩)
  else if keys K.GLFW_KEY_U == true && !caps then some (.translate ⟨0.0, 0.01, 0.0⟩)
  else if keys K.GLFW_KEY_D == true && !caps then some (.translate ⟨0.0, -0.01, 0.0⟩)
  else if keys K.GLFW_KEY_F == true && !caps then some (.translate ⟨0.0, 0.0, 0.01⟩)
  else if keys K.GLFW_KEY_B == true && !caps then some (.translate ⟨0.0, 0.0, -0.01⟩)
  else if keys K.GLFW_KEY_L == true && caps then some (.rotate 3.0 ⟨1.0, 0.0, 0.0⟩)
  else if keys K.GLFW_KEY_R == true && caps then some (.rotate 3.0 ⟨-1.0, 0.0, 0.0⟩)
  else if keys K.GLFW_KEY_U == true && caps then some (.rotate 3.0 ⟨0.0, 1.0, 0.0⟩)
  else if keys K.GLFW_KEY_D == true && caps then some (.rotate 3.0 ⟨0.0, -1.0, 0.0⟩)
  else if keys K.GLFW_KEY_F == true && caps then some (.rotate 3.0 ⟨0.0, 0.0, 1.0⟩)
  else if keys K.GLFW_KEY_B == true && caps then some (.rotate 3.0 ⟨0.0, 0.0, -1.0⟩)
  else none

/-- The two glm matrix functions the loop calls, on an abstract matrix type `M`. -/
class GlmMat4 (M : Type) where
  translate : M → Vec3 ℚ → M
  rotate : M → ℚ → Vec3 ℚ → M

/-- The effect of one `Transform` on the model matrix. -/
def Transform.apply {M : Type} [GlmMat4 M] (model : M) : Transform → M
  | .translate v => GlmMat4.translate model v
  | .rotate d axis => GlmMat4.rotate model d axis

/-- The model matrix after the transform chain of one frame. -/
def transformStep {M : Type} [GlmMat4 M] (K : KeyCodes) (keys : Keys) (caps : Bool)
    (model : M) : M :=
  match transformDispatch K keys caps with
  | some t => t.apply model
  | none => model

/-- Lines 282-285: the mode after the digit keys have been looked at. -/
def modeDispatch (K : KeyCodes) (keys : Keys) (currentMode : Int) : Int :=
  if keys K.GLFW_KEY_1 == true then 1
  else if keys K.GLFW_KEY_2 == true then 2
  else if keys K.GLFW_KEY_3 == true then 3
  else if keys K.GLFW_KEY_4 == true then 4
  else currentMode

/-- The draw calls of the loop: `glDrawArrays(GL_POINTS)`, `glDrawElements(GL_LINES)`,
`glDrawElements(GL_TRIANGLES)`. -/
inductive DrawCall where
  | points
  | lines
  | triangles
deriving DecidableEq, Repr

/-- Lines 300-326: the draw calls of a frame, or `exit(1)` after `Invalid Mode!`. -/
def draw (currentMode : Int) : Except Fault (List DrawCall) :=
  if currentMode == 1 then .ok [.points]
  else if currentMode == 2 then .ok [.lines]
  else if currentMode == 3 then .ok [.triangles]
  else if currentMode == 4 then .ok [.lines, .triangles]
  else .error (.exit 1)

/-- Line 43-46: `randfloat`, as the exact quotient of the value `r` that `rand()` returned by
the macro `RAND_MAX` of the C library, a parameter of the embedding. -/
def randfloat (RAND_MAX : Nat) (r : Nat) : ℚ :=
  (r : ℚ) / (RAND_MAX : ℚ)

/-- The C library generator: `rand k` is the value returned by the `k`-th call of `rand()`. -/
abbrev RandSeq := Nat → Nat

/-- The state the loop carries from frame to frame. -/
structure RenderState (M : Type) where
  model : M
  currentMode : Int
  flat_color : Vec3 ℚ
  randCalls : Nat

/-- The state before the first frame: `model` as set up on line 199, `currentMode` of line
204, the flat colour of line 67 and the number of `rand()` calls made so far. -/
def initialState {M : Type} (model : M) (randCalls : Nat) : RenderState M :=
  { model := model, currentMode := 1, flat_color := ⟨1.0, 0.5, 0.2⟩, randCalls := randCalls }

/-- Lines 286-299: regenerate the flat colour when `C` is held in mode 2 or 4. -/
def recolorStep {M : Type} (K : KeyCodes) (RAND_MAX : Nat) (rand : RandSeq) (keys : Keys)
    (st : RenderState M) : RenderState M :=
  if keys K.GLFW_KEY_C && (st.currentMode == 2 || st.currentMode == 4) then
    { st with
      flat_color := ⟨randfloat RAND_MAX (rand st.randCalls),
                     randfloat RAND_MAX (rand (st.randCalls + 1)),
                     randfloat RAND_MAX (rand (st.randCalls + 2))⟩
      randCalls := st.randCalls + 3 }
  else st

/-- One iteration of the loop body (lines 219-326) for the key snapshot `keys`, `caps`. -/
def frame {M : Type} [GlmMat4 M] (K : KeyCodes) (RAND_MAX : Nat) (rand : RandSeq)
    (keys : Keys) (caps : Bool) (st : RenderState M) :
    Except Fault (RenderState M × List DrawCall) :=
  let st1 := { st with model := transformStep K keys caps st.model }
  let st2 := { st1 with currentMode := modeDispatch K keys st1.currentMode }
  let st3 := recolorStep K RAND_MAX rand keys st2
  match draw st3.currentMode with
  | .ok calls => .ok (st3, calls)
  | .error e => .error e

/-- The loop run over a sequence of per-frame key snapshots, up to the first `exit`. -/
def runFrames {M : Type} [GlmMat4 M] (K : KeyCodes) (RAND_MAX : Nat) (rand : RandSeq) :
    List (Keys × Bool) → RenderState M → Except Fault (RenderState M)
  | [], st => .ok st
  | (keys, caps) :: rest, st =>
    match frame K RAND_MAX rand keys caps st with
    | .ok (st1, _) => runFrames K RAND_MAX rand rest st1
    | .error e => .error e

/-- The states the loop can be in at the start of a frame: the state `start` before the first
frame, and the state any frame returns from such a state. -/
inductive Reachable {M : Type} [GlmMat4 M] (K : KeyCodes) (RAND_MAX : Nat) (rand : RandSeq)
    (start : RenderState M) : RenderState M → Prop where
  | first : Reachable K RAND_MAX rand start start
  | next (st st1 : RenderState M) (keys : Keys) (caps : Bool) (calls : List DrawCall) :
      Reachable K RAND_MAX rand start st →
      frame K RAND_MAX rand keys caps st = .ok (st1, calls) →
      Reachable K RAND_MAX rand start st1

/-- The current mode is one of the four modes. -/
def ValidMode (m : Int) : Prop :=
  m = 1 ∨ m = 2 ∨ m = 3 ∨ m = 4

/-- The model matrix as the record of the calls made on it, oldest first. -/
instance : GlmMat4 (List Transform) where
  translate m v := m ++ [.translate v]
  rotate m d axis := m ++ [.rotate d axis]

/-- The digit keys with the mode each selects, in increasing order of the digit. -/
def digitKeys (K : KeyCodes) : List (Nat × Int) :=
  [(K.GLFW_KEY_1, 1), (K.GLFW_KEY_2, 2), (K.GLFW_KEY_3, 3), (K.GLFW_KEY_4, 4)]

/-- The digits whose key is held in the snapshot, in increasing order. -/
def heldDigits (K : KeyCodes) (keys : Keys) : List Int :=
  ((digitKeys K).filter (fun p => keys p.1)).map (fun p => p.2)

/-- The six directional keys in the order L, R, U, D, F, B. -/
def directionKeys (K : KeyCodes) : List Nat :=
  [K.GLFW_KEY_L, K.GLFW_KEY_R, K.GLFW_KEY_U, K.GLFW_KEY_D, K.GLFW_KEY_F, K.GLFW_KEY_B]

/-- The first held directional key in the order L, R, U, D, F, B. -/
def firstHeld (K : KeyCodes) (keys : Keys) : Option Nat :=
  (directionKeys K).find? keys

/-- The snapshot in which `k` is the only key held. -/
def onlyKey (k : Nat) : Keys := fun j => j == k

/-- A vector with exactly one non-zero component, of absolute value `m`. -/
def OneAxis (v : Vec3 ℚ) (m : ℚ) : Prop :=
  (|v.x| = m ∧ v.y = 0 ∧ v.z = 0) ∨ (v.x = 0 ∧ |v.y| = m ∧ v.z = 0) ∨
    (v.x = 0 ∧ v.y = 0 ∧ |v.z| = m)

/-! ## Colours -/

/-- The loop of `color_generator` with `n` iterations left; `calls` counts the `rand()`
calls made so far. -/
def colorLoop (RAND_MAX : Nat) (rand : RandSeq) :
    Nat → List (Vec3 ℚ) → Nat → List (Vec3 ℚ) × Nat
  | 0, colors, calls => (colors, calls)
  | n + 1, colors, calls =>
    colorLoop RAND_MAX rand n
      (colors ++ [⟨randfloat RAND_MAX (rand calls), randfloat RAND_MAX (rand (calls + 1)),
                   randfloat RAND_MAX (rand (calls + 2))⟩])
      (calls + 3)

/-- Lines 398-408: `color_generator`; the result is the colour vector and the number of
`rand()` calls made when it returns. -/
def color_generator (RAND_MAX : Nat) (rand : RandSeq) (n_vertices : Int)
    (colors : List (Vec3 ℚ)) (calls : Nat) : List (Vec3 ℚ) × Nat :=
  colorLoop RAND_MAX rand n_vertices.toNat colors calls

/-- Every channel of the colour lies in the closed interval from 0 to 1. -/
def Vec3.InUnitClosed (c : Vec3 ℚ) : Prop :=
  (0 ≤ c.x ∧ c.x ≤ 1) ∧ (0 ≤ c.y ∧ c.y ≤ 1) ∧ (0 ≤ c.z ∧ c.z ≤ 1)

/-- Every channel of the colour lies in the half-open interval from 0 to 1. -/
def Vec3.InUnitHalfOpen (c : Vec3 ℚ) : Prop :=
  (0 ≤ c.x ∧ c.x < 1) ∧ (0 ≤ c.y ∧ c.y < 1) ∧ (0 ≤ c.z ∧ c.z < 1)

/-! ## Loops over the triangle index vector -/

/-- The values of the counter of `for (int i = 0; i < n; i += 3)`. -/
def loopIndices (n : Nat) : List Nat :=
  (List.range ((n + 2) / 3)).map (fun k => 3 * k)

/-- The three reads `triangles[i]`, `triangles[i + 1]`, `triangles[i + 2]` that open the
body of both loops; a read past the end is undefined. -/
def readTriangle (triangles : List Nat) (i : Nat) : Except Fault (Nat × Nat × Nat) :=
  match triangles[i]?, triangles[i + 1]?, triangles[i + 2]? with
  | some ia, some ib, some ic => .ok (ia, ib, ic)
  | _, _, _ => .error .undefined

/-- The six `push_back` calls of `triangle2edge` (lines 392-394). -/
def pushEdges (edges : List Nat) (t : Nat × Nat × Nat) : Except Fault (List Nat) :=
  .ok (edges ++ [t.1, t.2.1, t.2.1, t.2.2, t.2.2, t.1])

/-- Lines 385-396: `triangle2edge`. -/
def triangle2edge (triangles : List Nat) (edges : List Nat) : Except Fault (List Nat) :=
  (loopIndices triangles.length).foldlM
    (fun edges i => readTriangle triangles i >>= pushEdges edges) edges

/-- The flat index vector of a list of triangles (three consecutive entries each). -/
def flattenTriangles : List (Nat × Nat × Nat) → List Nat
  | [] => []
  | (a, b, c) :: rest => a :: b :: c :: flattenTriangles rest

/-- The index pairs `(a,b), (b,c), (c,a)` of each triangle, in triangle order. -/
def edgePairs : List (Nat × Nat × Nat) → List (Nat × Nat)
  | [] => []
  | (a, b, c) :: rest => (a, b) :: (b, c) :: (c, a) :: edgePairs rest

/-- The flat index vector of a list of index pairs (two consecutive entries each). -/
def flattenPairs : List (Nat × Nat) → List Nat
  | [] => []
  | (a, b) :: rest => a :: b :: flattenPairs rest

/-! ## Normals -/

/-- The scalar function `glm::inversesqrt`, which `glm::normalize` is built on. -/
class InverseSqrt (F : Type) where
  inversesqrt : F → F

export InverseSqrt (inversesqrt)

section Geometry

variable {F : Type} [Zero F] [Add F] [Sub F] [Mul F] [InverseSqrt F]

/-- Component-wise `operator-` of `glm::vec3`. -/
def Vec3.sub (a b : Vec3 F) : Vec3 F :=
  ⟨a.x - b.x, a.y - b.y, a.z - b.z⟩

/-- The product `v * s` of a `glm::vec3` with a scalar. -/
def Vec3.scale (v : Vec3 F) (s : F) : Vec3 F :=
  ⟨v.x * s, v.y * s, v.z * s⟩

/-- The zero vector `glm::vec3(0.0, 0.0, 0.0)`. -/
def Vec3.zero : Vec3 F := ⟨0, 0, 0⟩

/-- The function `glm::cross` as glm defines it (`func_geometric.inl`). -/
def cross (x y : Vec3 F) : Vec3 F :=
  ⟨x.y * y.z - y.y * x.z, x.z * y.x - y.z * x.x, x.x * y.y - y.x * x.y⟩

/-- The function `glm::dot` as glm defines it for three components. -/
def dot (a b : Vec3 F) : F :=
  a.x * b.x + a.y * b.y + a.z * b.z

/-- The function `glm::normalize` as glm defines it: `v * inversesqrt(dot(v, v))`. -/
def normalize (v : Vec3 F) : Vec3 F :=
  v.scale (inversesqrt (dot v v))

/-- Lines 378-380, the argument of `glm::normalize`: the cross product of the two edge
vectors of the triangle with corner positions `va`, `vb`, `vc`. -/
def triangleCross (va vb vc : Vec3 F) : Vec3 F :=
  cross (vb.sub va) (vc.sub va)

/-- Lines 378-380: the normal of the triangle with corner positions `va`, `vb`, `vc`. -/
def triangleNormal (va vb vc : Vec3 F) : Vec3 F :=
  normalize (triangleCross va vb vc)

/-- The call `v.resize(n, val)` of `std::vector`. -/
def resize {α : Type} (v : List α) (n : Nat) (val : α) : List α :=
  v.take n ++ List.replicate (n - v.length) val

/-- The assignment `normals[i] = val`; writing past the end is undefined. -/
def assignAt {α : Type} (v : List α) (i : Nat) (val : α) : Except Fault (List α) :=
  if i < v.length then .ok (v.set i val) else .error .undefined

/-- Lines 378-381: the rest of the body of the normal loop for the triangle `(ia, ib, ic)`.
The chained assignment stores into `normals[ic]`, then `normals[ib]`, then `normals[ia]`. -/
def storeNormal (vertices : List (Vec3 F)) (normals : List (Vec3 F)) (t : Nat × Nat × Nat) :
    Except Fault (List (Vec3 F)) :=
  match vertices[t.1]?, vertices[t.2.1]?, vertices[t.2.2]? with
  | some va, some vb, some vc =>
    let normal := triangleNormal va vb vc
    assignAt normals t.2.2 normal >>= fun n1 =>
    assignAt n1 t.2.1 normal >>= fun n2 =>
    assignAt n2 t.1 normal
  | _, _, _ => .error .undefined

/-- Lines 372-382: the normal pass of `load_obj`. -/
def normalPass (vertices : List (Vec3 F)) (normals : List (Vec3 F)) (triangles : List Nat) :
    Except Fault (List (Vec3 F)) :=
  (loopIndices triangles.length).foldlM
    (fun normals i => readTriangle triangles i >>= storeNormal vertices normals)
    (resize normals vertices.length Vec3.zero)

end Geometry

/-- A `float` value as far as exact arithmetic can follow it: a rational number, an
infinity, NaN, or `untracked`, which stands for a value that exact rational arithmetic does
not express (the inverse square root of a number that is not the square of a rational, and
whatever is computed from one).  Rounding and overflow are not modelled and zero carries no
sign. -/
inductive Scalar where
  | fin (q : ℚ)
  | inf (negative : Bool)
  | nan
  | untracked
deriving DecidableEq, Repr

/-- Negation of a `float`. -/
def Scalar.neg : Scalar → Scalar
  | .fin q => .fin (-q)
  | .inf s => .inf (!s)
  | .nan => .nan
  | .untracked => .untracked

/-- Addition of `float`s: exact on numbers; NaN propagates; infinities of opposite sign
add to NaN. -/
def Scalar.add : Scalar → Scalar → Scalar
  | .nan, _ => .nan
  | _, .nan => .nan
  | .untracked, _ => .untracked
  | _, .untracked => .untracked
  | .fin a, .fin b => .fin (a + b)
  | .fin _, .inf s => .inf s
  | .inf s, .fin _ => .inf s
  | .inf s, .inf t => if s = t then .inf s else .nan

/-- Multiplication of `float`s: exact on numbers; NaN propagates; zero times an infinity
is NaN. -/
def Scalar.mul : Scalar → Scalar → Scalar
  | .nan, _ => .nan
  | _, .nan => .nan
  | .untracked, _ => .untracked
  | _, .untracked => .untracked
  | .fin a, .fin b => .fin (a * b)
  | .fin a, .inf s => if a = 0 then .nan else .inf (s != decide (a < 0))
  | .inf s, .fin a => if a = 0 then .nan else .inf (s != decide (a < 0))
  | .inf s, .inf t => .inf (s != t)

/-- The function `glm::inversesqrt`, `1 / sqrt(x)`: NaN below zero, infinity at zero, zero at
infinity, the exact value at the square of a rational, `untracked` at any other number. -/
def Scalar.inversesqrt : Scalar → Scalar
  | .fin q =>
    if q < 0 then .nan
    else if q = 0 then .inf false
    else if Rat.sqrt q * Rat.sqrt q = q then .fin (Rat.sqrt q)⁻¹
    else .untracked
  | .inf false => .fin 0
  | .inf true => .nan
  | .nan => .nan
  | .untracked => .untracked

instance : Zero Scalar := ⟨.fin 0⟩
instance : One Scalar := ⟨.fin 1⟩
instance : Add Scalar := ⟨Scalar.add⟩
instance : Sub Scalar := ⟨fun a b => Scalar.add a (Scalar.neg b)⟩
instance : Mul Scalar := ⟨Scalar.mul⟩
instance : InverseSqrt Scalar := ⟨Scalar.inversesqrt⟩

/-- Whether `v` is a corner of the triangle `t`. -/
def hasCorner (v : Nat) (t : Nat × Nat × Nat) : Bool :=
  t.1 == v || t.2.1 == v || t.2.2 == v

/-- The last triangle in the list that has `v` as a corner. -/
def lastTriangle (v : Nat) (ts : List (Nat × Nat × Nat)) : Option (Nat × Nat × Nat) :=
  ts.reverse.find? (hasCorner v)

/-- The normal the loop computes for triangle `t` from the vertex vector (corner positions
read with `vertices[...]`, the zero vector standing in for a read past the end). -/
def cornerNormal {F : Type} [Zero F] [Add F] [Sub F] [Mul F] [InverseSqrt F]
    (vertices : List (Vec3 F)) (t : Nat × Nat × Nat) : Vec3 F :=
  triangleNormal (vertices.getD t.1 Vec3.zero) (vertices.getD t.2.1 Vec3.zero)
    (vertices.getD t.2.2 Vec3.zero)

/-- All corners of all triangles are valid indices into a vertex vector of size `n`. -/
def InRange (n : Nat) (ts : List (Nat × Nat × Nat)) : Prop :=
  ∀ t ∈ ts, t.1 < n ∧ t.2.1 < n ∧ t.2.2 < n

/-- The arithmetic facts about 0 and 1 that the worked example uses; all of them are exact
in IEEE arithmetic and hold in every field with `inversesqrt 1 = 1`. -/
structure ZeroOneExact (F : Type) [Zero F] [One F] [Add F] [Sub F] [Mul F] [InverseSqrt F] :
    Prop where
  zero_add_zero : (0 : F) + 0 = 0
  zero_add_one : (0 : F) + 1 = 1
  zero_sub_zero : (0 : F) - 0 = 0
  one_sub_zero : (1 : F) - 0 = 1
  zero_mul_zero : (0 : F) * 0 = 0
  zero_mul_one : (0 : F) * 1 = 0
  one_mul_zero : (1 : F) * 0 = 0
  one_mul_one : (1 : F) * 1 = 1
  inversesqrt_one : inversesqrt (1 : F) = 1

/-! ### The normal of a triangle written out in coordinates

These three definitions follow the wording of the specification, not the code: they are
what the stored normals are compared with. -/

/-- The cross product of `pb - pa` and `pc - pa`, coordinate by coordinate. -/
def edgeCross {F : Type} [Sub F] [Mul F] (pa pb pc : Vec3 F) : Vec3 F :=
  ⟨(pb.y - pa.y) * (pc.z - pa.z) - (pc.y - pa.y) * (pb.z - pa.z),
   (pb.z - pa.z) * (pc.x - pa.x) - (pc.z - pa.z) * (pb.x - pa.x),
   (pb.x - pa.x) * (pc.y - pa.y) - (pc.x - pa.x) * (pb.y - pa.y)⟩

/-- The squared length of a vector. -/
def lengthSq {F : Type} [Add F] [Mul F] (n : Vec3 F) : F :=
  n.x * n.x + n.y * n.y + n.z * n.z

/-- The vector `k` with every coordinate multiplied by the inverse square root of the squared
length of `k`. -/
def scaledToUnit {F : Type} [Add F] [Mul F] [InverseSqrt F] (k : Vec3 F) : Vec3 F :=
  ⟨k.x * inversesqrt (lengthSq k), k.y * inversesqrt (lengthSq k),
   k.z * inversesqrt (lengthSq k)⟩

/-! ## Streams -/

/-- The function `std::isspace` in the "C" locale: space, `\t`, `\n`, `\v`, `\f`, `\r`. -/
def isspace (c : Char) : Bool :=
  c.toNat == 32 || (9 ≤ c.toNat && c.toNat ≤ 13)

/-- The function `std::isdigit`. -/
def isdigit (c : Char) : Bool :=
  48 ≤ c.toNat && c.toNat ≤ 57

/-- The number a string of decimal digits denotes. -/
def decimalValue (ds : List Char) : Nat :=
  ds.foldl (fun acc c => 10 * acc + (c.toNat - 48)) 0

/-- A `std::istringstream`: the characters not yet read and the `failbit`.  (An extraction
from a stream with `eofbit` set fails the way one from a stream with nothing left to read
does, so `eofbit` is not kept apart.) -/
structure IStream where
  buf : List Char
  failbit : Bool
deriving DecidableEq, Repr

/-- What `s >> x` did: `stored` is the value assigned to `x`, or `none` when `x` was left
untouched; `stream` is the stream afterwards. -/
structure Extracted (α : Type) where
  stored : Option α
  stream : IStream
deriving DecidableEq, Repr

/-- The extraction `s >> a` for `GLushort a` (16-bit unsigned), as libstdc++, libc++ and the
MSVC library implement it: a stream that has failed, or ends after the white space, leaves
`a` untouched and fails; otherwise an optional sign and the decimal digits after it are
consumed; no digit stores 0 and fails; a magnitude above 65535 stores 65535 and fails; a
minus sign negates modulo 65536. -/
def extractUShort (s : IStream) : Extracted Nat :=
  if s.failbit then ⟨none, s⟩
  else
    match s.buf.dropWhile isspace with
    | [] => ⟨none, ⟨[], true⟩⟩
    | c :: cs =>
      let signed := c == '-' || c == '+'
      let field := if signed then cs else c :: cs
      let digits := field.takeWhile isdigit
      let rest := field.dropWhile isdigit
      if digits.isEmpty then ⟨some 0, ⟨rest, true⟩⟩
      else if decimalValue digits > 65535 then ⟨some 65535, ⟨rest, true⟩⟩
      else if c == '-' then ⟨some ((65536 - decimalValue digits) % 65536), ⟨rest, false⟩⟩
      else ⟨some (decimalValue digits), ⟨rest, false⟩⟩

/-- The extraction `s >> x` for `float x`, a function of the standard library that the
embedding takes as given. -/
class FloatExtract (F : Type) where
  extractFloat : IStream → Extracted F

export FloatExtract (extractFloat)

/-- Extraction of a plain decimal numeral (`-12.5`, `3`, `.25`) with its exact value;
exponent forms are not recognised. -/
def extractDecimal (s : IStream) : Extracted ℚ :=
  if s.failbit then ⟨none, s⟩
  else
    match s.buf.dropWhile isspace with
    | [] => ⟨none, ⟨[], true⟩⟩
    | c :: cs =>
      let signed := c == '-' || c == '+'
      let field := if signed then cs else c :: cs
      let whole := field.takeWhile isdigit
      let afterWhole := field.dropWhile isdigit
      let frac := if afterWhole.head? = some '.' then afterWhole.tail.takeWhile isdigit else []
      let rest := if afterWhole.head? = some '.' then afterWhole.tail.dropWhile isdigit
        else afterWhole
      if whole.isEmpty && frac.isEmpty then ⟨some 0, ⟨rest, true⟩⟩
      else
        let magnitude : ℚ :=
          (decimalValue whole : ℚ) + (decimalValue frac : ℚ) / (10 : ℚ) ^ frac.length
        ⟨some (if c == '-' then -magnitude else magnitude), ⟨rest, false⟩⟩

/-- Extraction of a `float` written as a plain decimal numeral.  Used where a concrete
scalar type is needed. -/
instance : FloatExtract Scalar where
  extractFloat s := ⟨(extractDecimal s).stored.map Scalar.fin, (extractDecimal s).stream⟩

/-! ## Loading an OBJ file -/

/-- The lines `while (getline(in, line))` delivers for the file contents: the text is cut at
each `\n`; characters after the last `\n` form a last line. -/
def getlines : List Char → List (List Char)
  | [] => []
  | c :: cs =>
    if c = '\n' then [] :: getlines cs
    else
      match getlines cs with
      | [] => [[c]]
      | line :: rest => (c :: line) :: rest

/-- Lines 357-359: the three extractions into `glm::vec3 v` from `line.substr(2)`.  A
component that no extraction assigned is read uninitialised by `push_back`. -/
def parseVertex {F : Type} [FloatExtract F] (line : List Char) : Except Fault (Vec3 F) :=
  let ex : Extracted F := extractFloat ⟨line.drop 2, false⟩
  let ey : Extracted F := extractFloat ex.stream
  let ez : Extracted F := extractFloat ey.stream
  match ex.stored, ey.stored, ez.stored with
  | some x, some y, some z => .ok ⟨x, y, z⟩
  | _, _, _ => .error .undefined

/-- The statement `a--` on a `GLushort`. -/
def decrement (a : Nat) : Nat :=
  (a + 65535) % 65536

/-- Lines 363-366: the three extractions into `GLushort a, b, c` from `line.substr(2)` and
the decrements.  An index that no extraction assigned is read uninitialised. -/
def parseFace (line : List Char) : Except Fault (Nat × Nat × Nat) :=
  let ea := extractUShort ⟨line.drop 2, false⟩
  let eb := extractUShort ea.stream
  let ec := extractUShort eb.stream
  match ea.stored, eb.stored, ec.stored with
  | some a, some b, some c => .ok (decrement a, decrement b, decrement c)
  | _, _, _ => .error .undefined

/-- Lines 355-369: the body of the `getline` loop on the vertex and triangle vectors. -/
def processLine {F : Type} [FloatExtract F] (st : List (Vec3 F) × List Nat)
    (line : List Char) : Except Fault (List (Vec3 F) × List Nat) :=
  if line.take 2 = ['v', ' '] then
    parseVertex line >>= fun v => .ok (st.1 ++ [v], st.2)
  else if line.take 2 = ['f', ' '] then
    parseFace line >>= fun t => .ok (st.1, st.2 ++ [t.1, t.2.1, t.2.2])
  else .ok st

/-- The three output vectors of `load_obj`. -/
structure Mesh (F : Type) where
  vertices : List (Vec3 F)
  normals : List (Vec3 F)
  triangles : List Nat

/-- Lines 344-383: `load_obj`.  `file` is the contents of the file, `none` when it cannot be
opened; the three vectors are the ones passed by reference. -/
def load_obj {F : Type} [Zero F] [Add F] [Sub F] [Mul F] [InverseSqrt F] [FloatExtract F]
    (file : Option (List Char)) (vertices normals : List (Vec3 F)) (triangles : List Nat) :
    Except Fault (Mesh F) :=
  match file with
  | none => .error (.exit 1)
  | some text =>
    (getlines text).foldlM processLine (vertices, triangles) >>= fun st =>
    normalPass st.1 normals st.2 >>= fun ns =>
    .ok ⟨st.1, ns, st.2⟩

/-- The file contents made of the given lines, each ended by `\n`. -/
def joinLines : List (List Char) → List Char
  | [] => []
  | line :: rest => line ++ '\n' :: joinLines rest

/-- The decimal numeral of `n`, as `Nat.repr` prints it. -/
def decimal (n : Nat) : List Char :=
  (Nat.repr n).toList

/-- The line `f i j k`. -/
def faceLine (i j k : Nat) : List Char :=
  'f' :: ' ' :: (decimal i ++ ' ' :: (decimal j ++ ' ' :: decimal k))

/-- A line of a well-formed OBJ text: a vertex line `v x y z` (`body` is `x y z`, `p` the
position its three fields extract to), a face line `f i j k`, or any other line. -/
inductive ObjLine (F : Type) where
  | vertex (body : List Char) (p : Vec3 F)
  | face (i j k : Nat)
  | other (line : List Char)

/-- The characters of the line. -/
def ObjLine.text {F : Type} : ObjLine F → List Char
  | .vertex body _ => 'v' :: ' ' :: body
  | .face i j k => faceLine i j k
  | .other line => line

/-- The file contents: every line followed by `\n`. -/
def objText {F : Type} (lines : List (ObjLine F)) : List Char :=
  joinLines (lines.map ObjLine.text)

/-- The positions of the vertex lines, in file order. -/
def positions {F : Type} : List (ObjLine F) → List (Vec3 F)
  | [] => []
  | .vertex _ p :: rest => p :: positions rest
  | .face _ _ _ :: rest => positions rest
  | .other _ :: rest => positions rest

/-- The triple `(i-1, j-1, k-1)` of each face line `f i j k`, in file order. -/
def triples {F : Type} : List (ObjLine F) → List (Nat × Nat × Nat)
  | [] => []
  | .vertex _ _ :: rest => triples rest
  | .face i j k :: rest => (i - 1, j - 1, k - 1) :: triples rest
  | .other _ :: rest => triples rest

/-- The three fields of a vertex line extract, in order, to the components of `p`. -/
def ExtractsTo {F : Type} [FloatExtract F] (body : List Char) (p : Vec3 F) : Prop :=
  (extractFloat ⟨body, false⟩ : Extracted F).stored = some p.x ∧
  (extractFloat (extractFloat ⟨body, false⟩ : Extracted F).stream : Extracted F).stored
    = some p.y ∧
  (extractFloat (extractFloat (extractFloat ⟨body, false⟩ : Extracted F).stream :
    Extracted F).stream : Extracted F).stored = some p.z

/-- A line of a well-formed OBJ text with `V` vertices: the fields of a vertex line extract to
its position, the indices of a face line are between 1 and `V`, any other line starts with
neither `v ` nor `f `; no line contains `\n`. -/
def ObjLine.WellFormed {F : Type} [FloatExtract F] (V : Nat) : ObjLine F → Prop
  | .vertex body p => '\n' ∉ body ∧ ExtractsTo body p
  | .face i j k => (1 ≤ i ∧ i ≤ V) ∧ (1 ≤ j ∧ j ≤ V) ∧ (1 ≤ k ∧ k ≤ V)
  | .other line => '\n' ∉ line ∧ line.take 2 ≠ ['v', ' '] ∧ line.take 2 ≠ ['f', ' ']

/-- A well-formed OBJ text: every line is well-formed for the number of vertex lines. -/
def WellFormedObj {F : Type} [FloatExtract F] (lines : List (ObjLine F)) : Prop :=
  ∀ l ∈ lines, l.WellFormed (positions lines).length

/-- Every index of the face line fits the 16 bits of a `GLushort`. -/
def ObjLine.FitsUShort {F : Type} : ObjLine F → Prop
  | .face i j k => i ≤ 65535 ∧ j ≤ 65535 ∧ k ≤ 65535
  | _ => True

/-- An OBJ text with 65536 vertex lines `v 0 0 0` and the face line `f 65536 1 1`. -/
def overflowObj : List (ObjLine Scalar) :=
  List.replicate 65536 (.vertex "0 0 0".toList ⟨0, 0, 0⟩) ++ [.face 65536 1 1]

/-- The file contents made of the given lines with `\n` between them and none at the end. -/
def joinLinesOpen : List (List Char) → List Char
  | [] => []
  | [line] => line
  | line :: next :: rest => line ++ '\n' :: joinLinesOpen (next :: rest)

/-- The file contents without a line end after the last line. -/
def objTextOpen {F : Type} (lines : List (ObjLine F)) : List Char :=
  joinLinesOpen (lines.map ObjLine.text)

/-! # Theorems -/

/-! ## Render loop -/

theorem draw_ok_of_mode (m : Int) (h : m = 1 ∨ m = 2 ∨ m = 3 ∨ m = 4) :
    ∃ calls, draw m = .ok calls := by
  rcases h with h | h | h | h <;> subst h <;> simp [draw]

theorem modeDispatch_mem (K : KeyCodes) (keys : Keys) (m : Int)
    (h : m = 1 ∨ m = 2 ∨ m = 3 ∨ m = 4) :
    modeDispatch K keys m = 1 ∨ modeDispatch K keys m = 2 ∨ modeDispatch K keys m = 3 ∨
      modeDispatch K keys m = 4 := by
  unfold modeDispatch
  split_ifs <;> simp [h]

theorem recolorStep_mode {M : Type} (K : KeyCodes) (RAND_MAX : Nat) (rand : RandSeq)
    (keys : Keys) (st : RenderState M) :
    (recolorStep K RAND_MAX rand keys st).currentMode = st.currentMode := by
  unfold recolorStep
  split_ifs <;> rfl

theorem recolorStep_model {M : Type} (K : KeyCodes) (RAND_MAX : Nat) (rand : RandSeq)
    (keys : Keys) (st : RenderState M) :
    (recolorStep K RAND_MAX rand keys st).model = st.model := by
  unfold recolorStep
  split_ifs <;> rfl

theorem frame_ok {M : Type} [GlmMat4 M] (K : KeyCodes) (RAND_MAX : Nat) (rand : RandSeq)
    (keys : Keys) (caps : Bool) (st : RenderState M)
    (h : st.currentMode = 1 ∨ st.currentMode = 2 ∨ st.currentMode = 3 ∨ st.currentMode = 4) :
    ∃ st1 calls, frame K RAND_MAX rand keys caps st = .ok (st1, calls) ∧
      st1.currentMode = modeDispatch K keys st.currentMode := by
  have hm := modeDispatch_mem K keys st.currentMode h
  obtain ⟨calls, hc⟩ := draw_ok_of_mode _ hm
  refine ⟨recolorStep K RAND_MAX rand keys
    { model := transformStep K keys caps st.model,
      currentMode := modeDispatch K keys st.currentMode,
      flat_color := st.flat_color, randCalls := st.randCalls }, calls, ?_, ?_⟩
  · simp only [frame, recolorStep_mode, hc]
  · simp [recolorStep_mode]

/-- What a frame that returns has done to the mode and to the model matrix. -/
theorem frame_result {M : Type} [GlmMat4 M] (K : KeyCodes) (RAND_MAX : Nat) (rand : RandSeq)
    (keys : Keys) (caps : Bool) (st st1 : RenderState M) (calls : List DrawCall)
    (h : frame K RAND_MAX rand keys caps st = .ok (st1, calls)) :
    st1.currentMode = modeDispatch K keys st.currentMode ∧
    st1.model = transformStep K keys caps st.model ∧
    draw (modeDispatch K keys st.currentMode) = .ok calls := by
  simp only [frame, recolorStep_mode] at h
  cases hd : draw (modeDispatch K keys st.currentMode) with
  | error e => rw [hd] at h; cases h
  | ok c =>
    rw [hd] at h
    injection h with h
    injection h with h1 h2
    subst h1 h2
    exact ⟨by simp [recolorStep_mode], by simp [recolorStep_model], rfl⟩

/-- A frame whose mode after the dispatch is valid returns. -/
theorem frame_ok_of_dispatch {M : Type} [GlmMat4 M] (K : KeyCodes) (RAND_MAX : Nat)
    (rand : RandSeq) (keys : Keys) (caps : Bool) (st : RenderState M)
    (h : ValidMode (modeDispatch K keys st.currentMode)) :
    ∃ st1 calls, frame K RAND_MAX rand keys caps st = .ok (st1, calls) ∧
      st1.currentMode = modeDispatch K keys st.currentMode ∧
      st1.model = transformStep K keys caps st.model := by
  obtain ⟨calls, hc⟩ := draw_ok_of_mode _ h
  have hf : frame K RAND_MAX rand keys caps st = .ok (recolorStep K RAND_MAX rand keys
      { model := transformStep K keys caps st.model,
        currentMode := modeDispatch K keys st.currentMode,
        flat_color := st.flat_color, randCalls := st.randCalls }, calls) := by
    simp only [frame, recolorStep_mode, hc]
  obtain ⟨h1, h2, _⟩ := frame_result K RAND_MAX rand keys caps st _ calls hf
  exact ⟨_, calls, hf, h1, h2⟩

theorem runFrames_ok {M : Type} [GlmMat4 M] (K : KeyCodes) (RAND_MAX : Nat) (rand : RandSeq)
    (snaps : List (Keys × Bool)) : ∀ (st : RenderState M),
    (st.currentMode = 1 ∨ st.currentMode = 2 ∨ st.currentMode = 3 ∨ st.currentMode = 4) →
    ∃ st1, runFrames K RAND_MAX rand snaps st = .ok st1 ∧
      (st1.currentMode = 1 ∨ st1.currentMode = 2 ∨ st1.currentMode = 3 ∨
        st1.currentMode = 4) := by
  induction snaps with
  | nil => intro st h; exact ⟨st, rfl, h⟩
  | cons s rest ih =>
    intro st h
    obtain ⟨keys, caps⟩ := s
    obtain ⟨st1, calls, hf, hmode⟩ := frame_ok K RAND_MAX rand keys caps st h
    have h1 := modeDispatch_mem K keys st.currentMode h
    rw [← hmode] at h1
    obtain ⟨st2, hr, h2⟩ := ih st1 h1
    exact ⟨st2, by simp [runFrames, hf, hr], h2⟩

theorem runFrames_append {M : Type} [GlmMat4 M] (K : KeyCodes) (RAND_MAX : Nat)
    (rand : RandSeq) (l1 l2 : List (Keys × Bool)) : ∀ st : RenderState M,
    runFrames K RAND_MAX rand (l1 ++ l2) st
      = runFrames K RAND_MAX rand l1 st >>= runFrames K RAND_MAX rand l2 := by
  induction l1 with
  | nil => intro st; rfl
  | cons s rest ih =>
    intro st
    obtain ⟨keys, caps⟩ := s
    simp only [List.cons_append, runFrames]
    cases hf : frame K RAND_MAX rand keys caps st with
    | error e => rfl
    | ok r =>
      obtain ⟨st1, calls⟩ := r
      exact ih st1

theorem reachable_validMode {M : Type} [GlmMat4 M] (K : KeyCodes) (RAND_MAX : Nat)
    (rand : RandSeq) (model : M) (randCalls : Nat) (st : RenderState M)
    (h : Reachable K RAND_MAX rand (initialState model randCalls) st) :
    ValidMode st.currentMode := by
  induction h with
  | first => exact Or.inl rfl
  | next st0 st1 keys caps calls _ hf ih =>
    rw [(frame_result K RAND_MAX rand keys caps st0 st1 calls hf).1]
    exact modeDispatch_mem K keys st0.currentMode ih

theorem heldDigits_cases (K : KeyCodes) (keys : Keys) :
    heldDigits K keys =
      (if keys K.GLFW_KEY_1 then [1] else []) ++ (if keys K.GLFW_KEY_2 then [2] else []) ++
      (if keys K.GLFW_KEY_3 then [3] else []) ++ (if keys K.GLFW_KEY_4 then [4] else []) := by
  cases h1 : keys K.GLFW_KEY_1 <;> cases h2 : keys K.GLFW_KEY_2 <;>
    cases h3 : keys K.GLFW_KEY_3 <;> cases h4 : keys K.GLFW_KEY_4 <;>
    simp [heldDigits, digitKeys, List.filter, h1, h2, h3, h4]

/-- C5 (as stated, refuted): before the first frame the mode is 1, not 2, and the first frame
with no key held issues the points draw call, not the wireframe one. -/
theorem initial_mode_not_wireframe :
    (initialState ([] : List Transform) 0).currentMode = 1 ∧
    (initialState ([] : List Transform) 0).currentMode ≠ 2 ∧
    (∃ st, frame glfw3 32767 (fun _ => 0) (fun _ => false) false
        (initialState ([] : List Transform) 0) = .ok (st, [DrawCall.points])) ∧
    ¬ (∃ st, frame glfw3 32767 (fun _ => 0) (fun _ => false) false
        (initialState ([] : List Transform) 0) = .ok (st, [DrawCall.lines])) := by
  refine ⟨rfl, by decide, ⟨_, rfl⟩, ?_⟩
  rintro ⟨st, h⟩
  have h2 : frame glfw3 32767 (fun _ => 0) (fun _ => false) false
      (initialState ([] : List Transform) 0) = .ok (_, [DrawCall.points]) := rfl
  rw [h2] at h
  injection h with h
  injection h with _ h
  exact absurd h (by decide)

/-- C5 (amended): the render-mode state machine starts in state Points (1); the first frame
with no digit key held keeps mode 1 and draws in points mode. -/
theorem initial_mode_points {M : Type} [GlmMat4 M] (K : KeyCodes) (RAND_MAX : Nat)
    (rand : RandSeq) (model : M) (randCalls : Nat) (keys : Keys) (caps : Bool)
    (h : heldDigits K keys = []) :
    (initialState model randCalls).currentMode = 1 ∧
    ∃ st, frame K RAND_MAX rand keys caps (initialState model randCalls)
        = .ok (st, [DrawCall.points]) ∧ st.currentMode = 1 := by
  rw [heldDigits_cases] at h
  have h1 : keys K.GLFW_KEY_1 = false := by
    by_contra hk; simp [hk] at h
  have h2 : keys K.GLFW_KEY_2 = false := by
    by_contra hk; simp [hk] at h
  have h3 : keys K.GLFW_KEY_3 = false := by
    by_contra hk; simp [hk] at h
  have h4 : keys K.GLFW_KEY_4 = false := by
    by_contra hk; simp [hk] at h
  refine ⟨rfl, recolorStep K RAND_MAX rand keys
    { model := transformStep K keys caps model, currentMode := 1,
      flat_color := ⟨1.0, 0.5, 0.2⟩, randCalls := randCalls }, ?_, ?_⟩
  · simp [frame, initialState, modeDispatch, h1, h2, h3, h4, recolorStep_mode, draw]
  · simp [recolorStep_mode]

theorem initial_mode_points_witness :
    heldDigits glfw3 (onlyKey glfw3.GLFW_KEY_L) = [] ∧
    (initialState ([] : List Transform) 0).currentMode = 1 ∧
    ∃ st, frame glfw3 32767 (fun _ => 0) (onlyKey glfw3.GLFW_KEY_L) true
        (initialState ([] : List Transform) 0) = .ok (st, [DrawCall.points]) ∧
      st.currentMode = 1 :=
  ⟨by decide, initial_mode_points glfw3 32767 (fun _ => 0) [] 0 (onlyKey glfw3.GLFW_KEY_L) true
    (by decide)⟩

theorem modeDispatch_single (K : KeyCodes) (keys : Keys) (m d : Int)
    (h : heldDigits K keys = [d]) : modeDispatch K keys m = d ∧ ValidMode d := by
  rw [heldDigits_cases] at h
  revert h
  cases h1 : keys K.GLFW_KEY_1 <;> cases h2 : keys K.GLFW_KEY_2 <;>
    cases h3 : keys K.GLFW_KEY_3 <;> cases h4 : keys K.GLFW_KEY_4 <;>
    simp [modeDispatch, ValidMode, h1, h2, h3, h4] <;> intro h <;> subst h <;> simp

theorem modeDispatch_none (K : KeyCodes) (keys : Keys) (m : Int)
    (h : heldDigits K keys = []) : modeDispatch K keys m = m := by
  rw [heldDigits_cases] at h
  revert h
  cases h1 : keys K.GLFW_KEY_1 <;> cases h2 : keys K.GLFW_KEY_2 <;>
    cases h3 : keys K.GLFW_KEY_3 <;> cases h4 : keys K.GLFW_KEY_4 <;>
    simp [modeDispatch, h1, h2, h3, h4]

/-- C6: from the initial state every sequence of key snapshots runs without reaching the
`Invalid Mode!` exit and ends in a mode among 1, 2, 3, 4; in every state reachable from the
initial state the mode is one of 1, 2, 3, 4 and the next frame returns (its draw dispatch
does not take the exit branch); a frame in which exactly one digit key `d` is held returns a
state with mode `d` whatever the state before was, and a frame with no digit key held
returns a state with the mode unchanged. -/
theorem mode_invariant {M : Type} [GlmMat4 M] (K : KeyCodes) (RAND_MAX : Nat) (rand : RandSeq)
    (model : M) (randCalls : Nat) (snaps : List (Keys × Bool)) (keys : Keys) (caps : Bool)
    (m : Int) :
    (∃ st, runFrames K RAND_MAX rand snaps (initialState model randCalls) = .ok st ∧
      (st.currentMode = 1 ∨ st.currentMode = 2 ∨ st.currentMode = 3 ∨ st.currentMode = 4)) ∧
    (∀ d, heldDigits K keys = [d] → modeDispatch K keys m = d) ∧
    (heldDigits K keys = [] → modeDispatch K keys m = m) ∧
    (∀ st, Reachable K RAND_MAX rand (initialState model randCalls) st →
      (st.currentMode = 1 ∨ st.currentMode = 2 ∨ st.currentMode = 3 ∨ st.currentMode = 4) ∧
      draw st.currentMode ≠ .error (.exit 1) ∧
      ∃ st1 calls, frame K RAND_MAX rand keys caps st = .ok (st1, calls) ∧
        Reachable K RAND_MAX rand (initialState model randCalls) st1) ∧
    (∀ (st : RenderState M) (d : Int), heldDigits K keys = [d] →
      ∃ st1 calls, frame K RAND_MAX rand keys caps st = .ok (st1, calls) ∧
        st1.currentMode = d) ∧
    (∀ st : RenderState M, heldDigits K keys = [] →
      (st.currentMode = 1 ∨ st.currentMode = 2 ∨ st.currentMode = 3 ∨ st.currentMode = 4) →
      ∃ st1 calls, frame K RAND_MAX rand keys caps st = .ok (st1, calls) ∧
        st1.currentMode = st.currentMode) ∧
    (∀ d, heldDigits K keys = [d] →
      ∃ st, runFrames K RAND_MAX rand (snaps ++ [(keys, caps)]) (initialState model randCalls)
          = .ok st ∧ st.currentMode = d) ∧
    (heldDigits K keys = [] →
      ∃ st0 st, runFrames K RAND_MAX rand snaps (initialState model randCalls) = .ok st0 ∧
        runFrames K RAND_MAX rand (snaps ++ [(keys, caps)]) (initialState model randCalls)
          = .ok st ∧ st.currentMode = st0.currentMode) := by
  obtain ⟨st0, hrun, hvalid⟩ := runFrames_ok K RAND_MAX rand snaps
    (initialState model randCalls) (Or.inl rfl)
  refine ⟨⟨st0, hrun, hvalid⟩, fun d h => (modeDispatch_single K keys m d h).1,
    modeDispatch_none K keys m, ?_, ?_, ?_, ?_, ?_⟩
  · intro st hst
    have hv := reachable_validMode K RAND_MAX rand model randCalls st hst
    obtain ⟨st1, calls, hf, _⟩ := frame_ok K RAND_MAX rand keys caps st hv
    refine ⟨hv, ?_, st1, calls, hf, Reachable.next st st1 keys caps calls hst hf⟩
    obtain ⟨c, hc⟩ := draw_ok_of_mode _ hv
    rw [hc]
    intro h
    cases h
  · intro st d h
    obtain ⟨hd, hv⟩ := modeDispatch_single K keys st.currentMode d h
    obtain ⟨st1, calls, hf, hmode, _⟩ :=
      frame_ok_of_dispatch K RAND_MAX rand keys caps st (by rw [hd]; exact hv)
    exact ⟨st1, calls, hf, by rw [hmode, hd]⟩
  · intro st h hv
    have hd := modeDispatch_none K keys st.currentMode h
    obtain ⟨st1, calls, hf, hmode, _⟩ :=
      frame_ok_of_dispatch K RAND_MAX rand keys caps st (by rw [hd]; exact hv)
    exact ⟨st1, calls, hf, by rw [hmode, hd]⟩
  · intro d h
    obtain ⟨hd, hv⟩ := modeDispatch_single K keys st0.currentMode d h
    obtain ⟨st1, calls, hf, hmode, _⟩ :=
      frame_ok_of_dispatch K RAND_MAX rand keys caps st0 (by rw [hd]; exact hv)
    refine ⟨st1, ?_, by rw [hmode, hd]⟩
    rw [runFrames_append, hrun]
    show runFrames K RAND_MAX rand [(keys, caps)] st0 = _
    simp [runFrames, hf]
  · intro h
    have hd := modeDispatch_none K keys st0.currentMode h
    obtain ⟨st1, calls, hf, hmode, _⟩ :=
      frame_ok_of_dispatch K RAND_MAX rand keys caps st0 (by rw [hd]; exact hvalid)
    refine ⟨st0, st1, hrun, ?_, by rw [hmode, hd]⟩
    rw [runFrames_append, hrun]
    show runFrames K RAND_MAX rand [(keys, caps)] st0 = _
    simp [runFrames, hf]

theorem mode_invariant_witness :
    (∃ st, runFrames glfw3 32767 (fun _ => 0)
        [(onlyKey glfw3.GLFW_KEY_3, false), (onlyKey glfw3.GLFW_KEY_C, true),
          (onlyKey glfw3.GLFW_KEY_4, false)]
        (initialState ([] : List Transform) 0) = .ok st ∧
      (st.currentMode = 1 ∨ st.currentMode = 2 ∨ st.currentMode = 3 ∨ st.currentMode = 4)) ∧
    heldDigits glfw3 (onlyKey glfw3.GLFW_KEY_3) = [3] ∧
    modeDispatch glfw3 (onlyKey glfw3.GLFW_KEY_3) 2 = 3 ∧
    heldDigits glfw3 (onlyKey glfw3.GLFW_KEY_C) = [] ∧
    modeDispatch glfw3 (onlyKey glfw3.GLFW_KEY_C) 4 = 4 ∧
    (∃ st1 calls, frame glfw3 32767 (fun _ => 0) (onlyKey glfw3.GLFW_KEY_3) false
        (⟨([] : List Transform), 7, ⟨1.0, 0.5, 0.2⟩, 0⟩ : RenderState (List Transform))
        = .ok (st1, calls) ∧ st1.currentMode = 3) ∧
    (∃ st1 calls, frame glfw3 32767 (fun _ => 0) (onlyKey glfw3.GLFW_KEY_C) true
        (⟨([] : List Transform), 4, ⟨1.0, 0.5, 0.2⟩, 0⟩ : RenderState (List Transform))
        = .ok (st1, calls) ∧ st1.currentMode = 4) ∧
    (∃ st, runFrames glfw3 32767 (fun _ => 0)
        ([(onlyKey glfw3.GLFW_KEY_4, false), (onlyKey glfw3.GLFW_KEY_L, false)]
          ++ [(onlyKey glfw3.GLFW_KEY_3, false)])
        (initialState ([] : List Transform) 0) = .ok st ∧ st.currentMode = 3) :=
  ⟨(mode_invariant glfw3 32767 (fun _ => 0) ([] : List Transform) 0 _
      (onlyKey glfw3.GLFW_KEY_3) false 2).1,
   by decide,
   (mode_invariant glfw3 32767 (fun _ => 0) ([] : List Transform) 0 []
      (onlyKey glfw3.GLFW_KEY_3) false 2).2.1 3 (by decide),
   by decide,
   (mode_invariant glfw3 32767 (fun _ => 0) ([] : List Transform) 0 []
      (onlyKey glfw3.GLFW_KEY_C) true 4).2.2.1 (by decide),
   (mode_invariant glfw3 32767 (fun _ => 0) ([] : List Transform) 0 []
      (onlyKey glfw3.GLFW_KEY_3) false 2).2.2.2.2.1 _ 3 (by decide),
   (mode_invariant glfw3 32767 (fun _ => 0) ([] : List Transform) 0 []
      (onlyKey glfw3.GLFW_KEY_C) true 4).2.2.2.2.2.1 _ (by decide) (by decide),
   (mode_invariant glfw3 32767 (fun _ => 0) ([] : List Transform) 0
      [(onlyKey glfw3.GLFW_KEY_4, false), (onlyKey glfw3.GLFW_KEY_L, false)]
      (onlyKey glfw3.GLFW_KEY_3) false 2).2.2.2.2.2.2.1 3 (by decide)⟩

/-- C9 (as stated, refuted): with the keys 1 and 2 both held the mode after the dispatch is 1,
while the highest-numbered held digit is 2. -/
theorem highest_digit_does_not_win :
    heldDigits glfw3 (fun k => k == glfw3.GLFW_KEY_1 || k == glfw3.GLFW_KEY_2) = [1, 2] ∧
    (heldDigits glfw3 (fun k => k == glfw3.GLFW_KEY_1 || k == glfw3.GLFW_KEY_2)).getLast?
      = some 2 ∧
    modeDispatch glfw3 (fun k => k == glfw3.GLFW_KEY_1 || k == glfw3.GLFW_KEY_2) 3 = 1 ∧
    modeDispatch glfw3 (fun k => k == glfw3.GLFW_KEY_1 || k == glfw3.GLFW_KEY_2) 3 ≠ 2 := by
  decide

/-- C9 (amended): for every key snapshot in which two or more of the digit keys 1..4 are held
in the same frame, the mode after that frame's dispatch is the lowest-numbered held digit
(first-checked-wins precedence of the `else if` chain). -/
theorem lowest_digit_wins (K : KeyCodes) (keys : Keys) (m : Int)
    (h : 2 ≤ (heldDigits K keys).length) :
    some (modeDispatch K keys m) = (heldDigits K keys).head? ∧
    ∀ d ∈ heldDigits K keys, modeDispatch K keys m ≤ d := by
  rw [heldDigits_cases] at h ⊢
  cases h1 : keys K.GLFW_KEY_1 <;> cases h2 : keys K.GLFW_KEY_2 <;>
    cases h3 : keys K.GLFW_KEY_3 <;> cases h4 : keys K.GLFW_KEY_4 <;>
    simp [modeDispatch, h1, h2, h3, h4] at h ⊢

theorem lowest_digit_wins_witness :
    2 ≤ (heldDigits glfw3 (fun k => k == glfw3.GLFW_KEY_2 || k == glfw3.GLFW_KEY_4)).length ∧
    some (modeDispatch glfw3 (fun k => k == glfw3.GLFW_KEY_2 || k == glfw3.GLFW_KEY_4) 3)
      = (heldDigits glfw3 (fun k => k == glfw3.GLFW_KEY_2 || k == glfw3.GLFW_KEY_4)).head? ∧
    ∀ d ∈ heldDigits glfw3 (fun k => k == glfw3.GLFW_KEY_2 || k == glfw3.GLFW_KEY_4),
      modeDispatch glfw3 (fun k => k == glfw3.GLFW_KEY_2 || k == glfw3.GLFW_KEY_4) 3 ≤ d :=
  ⟨by decide,
   lowest_digit_wins glfw3 (fun k => k == glfw3.GLFW_KEY_2 || k == glfw3.GLFW_KEY_4) 3
     (by decide)⟩

theorem firstHeld_cases (K : KeyCodes) (keys : Keys) :
    firstHeld K keys =
      if keys K.GLFW_KEY_L then some K.GLFW_KEY_L
      else if keys K.GLFW_KEY_R then some K.GLFW_KEY_R
      else if keys K.GLFW_KEY_U then some K.GLFW_KEY_U
      else if keys K.GLFW_KEY_D then some K.GLFW_KEY_D
      else if keys K.GLFW_KEY_F then some K.GLFW_KEY_F
      else if keys K.GLFW_KEY_B then some K.GLFW_KEY_B
      else none := by
  cases hL : keys K.GLFW_KEY_L <;> cases hR : keys K.GLFW_KEY_R <;>
    cases hU : keys K.GLFW_KEY_U <;> cases hD : keys K.GLFW_KEY_D <;>
    cases hF : keys K.GLFW_KEY_F <;> cases hB : keys K.GLFW_KEY_B <;>
    simp [firstHeld, directionKeys, List.find?, hL, hR, hU, hD, hF, hB]

/-- What the chain does when one directional key is the only key held, the six directional
key codes being pairwise different. -/
theorem transformDispatch_onlyKey (K : KeyCodes) (hK : (directionKeys K).Nodup) :
    transformDispatch K (onlyKey K.GLFW_KEY_L) false = some (.translate ⟨-0.01, 0.0, 0.0⟩) ∧
    transformDispatch K (onlyKey K.GLFW_KEY_R) false = some (.translate ⟨0.01, 0.0, 0.0⟩) ∧
    transformDispatch K (onlyKey K.GLFW_KEY_U) false = some (.translate ⟨0.0, 0.01, 0.0⟩) ∧
    transformDispatch K (onlyKey K.GLFW_KEY_D) false = some (.translate ⟨0.0, -0.01, 0.0⟩) ∧
    transformDispatch K (onlyKey K.GLFW_KEY_F) false = some (.translate ⟨0.0, 0.0, 0.01⟩) ∧
    transformDispatch K (onlyKey K.GLFW_KEY_B) false = some (.translate ⟨0.0, 0.0, -0.01⟩) ∧
    transformDispatch K (onlyKey K.GLFW_KEY_L) true = some (.rotate 3.0 ⟨1.0, 0.0, 0.0⟩) ∧
    transformDispatch K (onlyKey K.GLFW_KEY_R) true = some (.rotate 3.0 ⟨-1.0, 0.0, 0.0⟩) ∧
    transformDispatch K (onlyKey K.GLFW_KEY_U) true = some (.rotate 3.0 ⟨0.0, 1.0, 0.0⟩) ∧
    transformDispatch K (onlyKey K.GLFW_KEY_D) true = some (.rotate 3.0 ⟨0.0, -1.0, 0.0⟩) ∧
    transformDispatch K (onlyKey K.GLFW_KEY_F) true = some (.rotate 3.0 ⟨0.0, 0.0, 1.0⟩) ∧
    transformDispatch K (onlyKey K.GLFW_KEY_B) true = some (.rotate 3.0 ⟨0.0, 0.0, -1.0⟩) := by
  simp only [directionKeys, List.nodup_cons, List.mem_cons, List.mem_singleton, not_or,
    List.not_mem_nil, not_false_eq_true, List.nodup_nil, and_true] at hK
  obtain ⟨⟨hLR, hLU, hLD, hLF, hLB⟩, ⟨hRU, hRD, hRF, hRB⟩, ⟨hUD, hUF, hUB⟩, ⟨hDF, hDB⟩, hFB⟩ := hK
  refine ⟨?_, ?_, ?_, ?_, ?_, ?_, ?_, ?_, ?_, ?_, ?_, ?_⟩ <;>
    simp [transformDispatch, onlyKey, hLR, hLU, hLD, hLF, hLB, hRU, hRD, hRF, hRB, hUD, hUF,
      hUB, hDF, hDB, hFB, Ne.symm hLR, Ne.symm hLU, Ne.symm hLD, Ne.symm hLF, Ne.symm hLB,
      Ne.symm hRU, Ne.symm hRD, Ne.symm hRF, Ne.symm hRB, Ne.symm hUD, Ne.symm hUF,
      Ne.symm hUB, Ne.symm hDF, Ne.symm hDB, Ne.symm hFB]

theorem transformDispatch_ite (K : KeyCodes) (hK : (directionKeys K).Nodup) (keys : Keys)
    (caps : Bool) :
    transformDispatch K keys caps =
      if keys K.GLFW_KEY_L then transformDispatch K (onlyKey K.GLFW_KEY_L) caps
      else if keys K.GLFW_KEY_R then transformDispatch K (onlyKey K.GLFW_KEY_R) caps
      else if keys K.GLFW_KEY_U then transformDispatch K (onlyKey K.GLFW_KEY_U) caps
      else if keys K.GLFW_KEY_D then transformDispatch K (onlyKey K.GLFW_KEY_D) caps
      else if keys K.GLFW_KEY_F then transformDispatch K (onlyKey K.GLFW_KEY_F) caps
      else if keys K.GLFW_KEY_B then transformDispatch K (onlyKey K.GLFW_KEY_B) caps
      else none := by
  obtain ⟨tL, tR, tU, tD, tF, tB, rL, rR, rU, rD, rF, rB⟩ := transformDispatch_onlyKey K hK
  cases caps
  · rw [tL, tR, tU, tD, tF, tB]
    cases hL : keys K.GLFW_KEY_L <;> cases hR : keys K.GLFW_KEY_R <;>
      cases hU : keys K.GLFW_KEY_U <;> cases hD : keys K.GLFW_KEY_D <;>
      cases hF : keys K.GLFW_KEY_F <;> cases hB : keys K.GLFW_KEY_B <;>
      simp [transformDispatch, hL, hR, hU, hD, hF, hB]
  · rw [rL, rR, rU, rD, rF, rB]
    cases hL : keys K.GLFW_KEY_L <;> cases hR : keys K.GLFW_KEY_R <;>
      cases hU : keys K.GLFW_KEY_U <;> cases hD : keys K.GLFW_KEY_D <;>
      cases hF : keys K.GLFW_KEY_F <;> cases hB : keys K.GLFW_KEY_B <;>
      simp [transformDispatch, hL, hR, hU, hD, hF, hB]

theorem transformDispatch_firstHeld (K : KeyCodes) (hK : (directionKeys K).Nodup)
    (keys : Keys) (caps : Bool) :
    transformDispatch K keys caps =
      (firstHeld K keys).bind (fun k => transformDispatch K (onlyKey k) caps) := by
  rw [transformDispatch_ite K hK, firstHeld_cases]
  split_ifs <;> rfl

theorem firstHeld_mem (K : KeyCodes) (keys : Keys) (k : Nat) (h : firstHeld K keys = some k) :
    k = K.GLFW_KEY_L ∨ k = K.GLFW_KEY_R ∨ k = K.GLFW_KEY_U ∨ k = K.GLFW_KEY_D ∨
      k = K.GLFW_KEY_F ∨ k = K.GLFW_KEY_B := by
  have hm := List.mem_of_find?_eq_some h
  simpa [directionKeys] using hm

theorem transformDispatch_onlyKey_shape (K : KeyCodes) (hK : (directionKeys K).Nodup)
    (caps : Bool) (k : Nat)
    (hk : k = K.GLFW_KEY_L ∨ k = K.GLFW_KEY_R ∨ k = K.GLFW_KEY_U ∨ k = K.GLFW_KEY_D ∨
      k = K.GLFW_KEY_F ∨ k = K.GLFW_KEY_B) :
    ∃ t, transformDispatch K (onlyKey k) caps = some t ∧
      (caps = false → ∃ v, t = .translate v ∧ OneAxis v 0.01) ∧
      (caps = true → ∃ axis, t = .rotate 3 axis ∧ OneAxis axis 1) := by
  obtain ⟨tL, tR, tU, tD, tF, tB, rL, rR, rU, rD, rF, rB⟩ := transformDispatch_onlyKey K hK
  cases caps
  · rcases hk with h | h | h | h | h | h <;> subst h
    · exact ⟨_, tL, fun _ => ⟨_, rfl, by norm_num [OneAxis]⟩, fun h => by cases h⟩
    · exact ⟨_, tR, fun _ => ⟨_, rfl, by norm_num [OneAxis]⟩, fun h => by cases h⟩
    · exact ⟨_, tU, fun _ => ⟨_, rfl, by norm_num [OneAxis]⟩, fun h => by cases h⟩
    · exact ⟨_, tD, fun _ => ⟨_, rfl, by norm_num [OneAxis]⟩, fun h => by cases h⟩
    · exact ⟨_, tF, fun _ => ⟨_, rfl, by norm_num [OneAxis]⟩, fun h => by cases h⟩
    · exact ⟨_, tB, fun _ => ⟨_, rfl, by norm_num [OneAxis]⟩, fun h => by cases h⟩
  · rcases hk with h | h | h | h | h | h <;> subst h
    · exact ⟨_, rL, (fun h => by cases h),
        fun _ => ⟨⟨1.0, 0.0, 0.0⟩, by norm_num, by norm_num [OneAxis]⟩⟩
    · exact ⟨_, rR, (fun h => by cases h),
        fun _ => ⟨⟨-1.0, 0.0, 0.0⟩, by norm_num, by norm_num [OneAxis]⟩⟩
    · exact ⟨_, rU, (fun h => by cases h),
        fun _ => ⟨⟨0.0, 1.0, 0.0⟩, by norm_num, by norm_num [OneAxis]⟩⟩
    · exact ⟨_, rD, (fun h => by cases h),
        fun _ => ⟨⟨0.0, -1.0, 0.0⟩, by norm_num, by norm_num [OneAxis]⟩⟩
    · exact ⟨_, rF, (fun h => by cases h),
        fun _ => ⟨⟨0.0, 0.0, 1.0⟩, by norm_num, by norm_num [OneAxis]⟩⟩
    · exact ⟨_, rB, (fun h => by cases h),
        fun _ => ⟨⟨0.0, 0.0, -1.0⟩, by norm_num, by norm_num [OneAxis]⟩⟩

/-- C7: in a frame the transform chain applies at most one command to the model matrix, the
one for the first held key in the order L, R, U, D, F, B (what it does is what it would do
were that key the only one held; with none held the model matrix is unchanged); with
caps-lock off the model matrix becomes `glm::translate(model, v)` for a vector `v` with
exactly one non-zero component of magnitude 0.01, with caps-lock on it becomes
`glm::rotate(model, radians(3), axis)` for an axis with exactly one non-zero component of
magnitude 1; the state a frame returns carries that model matrix.  The six directional key
codes are pairwise different. -/
theorem transform_dispatch {M : Type} [GlmMat4 M] (K : KeyCodes)
    (hK : (directionKeys K).Nodup) (RAND_MAX : Nat) (rand : RandSeq) (keys : Keys)
    (caps : Bool) (model : M) (st : RenderState M) :
    transformDispatch K keys caps
      = (firstHeld K keys).bind (fun k => transformDispatch K (onlyKey k) caps) ∧
    (firstHeld K keys = none →
      transformDispatch K keys caps = none ∧ transformStep K keys caps model = model) ∧
    (∀ k, firstHeld K keys = some k →
      ∃ t, transformDispatch K keys caps = some t ∧
        transformDispatch K (onlyKey k) caps = some t ∧
        transformStep K keys caps model = t.apply model ∧
        (caps = false → ∃ v, t = .translate v ∧ OneAxis v 0.01 ∧
          transformStep K keys caps model = GlmMat4.translate model v) ∧
        (caps = true → ∃ axis, t = .rotate 3 axis ∧ OneAxis axis 1 ∧
          transformStep K keys caps model = GlmMat4.rotate model 3 axis)) ∧
    (∀ st1 calls, frame K RAND_MAX rand keys caps st = .ok (st1, calls) →
      st1.model = transformStep K keys caps st.model) ∧
    ((st.currentMode = 1 ∨ st.currentMode = 2 ∨ st.currentMode = 3 ∨ st.currentMode = 4) →
      ∃ st1 calls, frame K RAND_MAX rand keys caps st = .ok (st1, calls) ∧
        st1.model = transformStep K keys caps st.model) := by
  have hd := transformDispatch_firstHeld K hK keys caps
  refine ⟨hd, ?_, ?_, ?_, ?_⟩
  · intro h
    have h0 : transformDispatch K keys caps = none := by rw [hd, h]; rfl
    exact ⟨h0, by simp [transformStep, h0]⟩
  · intro k hk
    obtain ⟨t, ht, htr, hrot⟩ :=
      transformDispatch_onlyKey_shape K hK caps k (firstHeld_mem K keys k hk)
    have h1 : transformDispatch K keys caps = some t := by rw [hd, hk]; exact ht
    have hstep : transformStep K keys caps model = t.apply model := by
      simp [transformStep, h1]
    refine ⟨t, h1, ht, hstep, ?_, ?_⟩
    · intro hc
      obtain ⟨v, hv, hax⟩ := htr hc
      exact ⟨v, hv, hax, by rw [hstep, hv]; rfl⟩
    · intro hc
      obtain ⟨axis, hv, hax⟩ := hrot hc
      exact ⟨axis, hv, hax, by rw [hstep, hv]; rfl⟩
  · intro st1 calls hf
    exact (frame_result K RAND_MAX rand keys caps st st1 calls hf).2.1
  · intro hv
    obtain ⟨st1, calls, hf, _, hmodel⟩ := frame_ok_of_dispatch K RAND_MAX rand keys caps st
      (modeDispatch_mem K keys st.currentMode hv)
    exact ⟨st1, calls, hf, hmodel⟩

theorem transform_dispatch_witness :
    (directionKeys glfw3).Nodup ∧
    firstHeld glfw3
      (fun k => k == glfw3.GLFW_KEY_U || k == glfw3.GLFW_KEY_R || k == glfw3.GLFW_KEY_B)
      = some glfw3.GLFW_KEY_R ∧
    (∃ t, transformDispatch glfw3
        (fun k => k == glfw3.GLFW_KEY_U || k == glfw3.GLFW_KEY_R || k == glfw3.GLFW_KEY_B) true
        = some t ∧
      transformDispatch glfw3 (onlyKey glfw3.GLFW_KEY_R) true = some t ∧
      transformStep glfw3
        (fun k => k == glfw3.GLFW_KEY_U || k == glfw3.GLFW_KEY_R || k == glfw3.GLFW_KEY_B) true
        ([] : List Transform) = t.apply [] ∧
      (true = false → ∃ v, t = .translate v ∧ OneAxis v 0.01 ∧
        transformStep glfw3
          (fun k => k == glfw3.GLFW_KEY_U || k == glfw3.GLFW_KEY_R || k == glfw3.GLFW_KEY_B)
          true ([] : List Transform) = GlmMat4.translate [] v) ∧
      (true = true → ∃ axis, t = .rotate 3 axis ∧ OneAxis axis 1 ∧
        transformStep glfw3
          (fun k => k == glfw3.GLFW_KEY_U || k == glfw3.GLFW_KEY_R || k == glfw3.GLFW_KEY_B)
          true ([] : List Transform) = GlmMat4.rotate [] 3 axis)) ∧
    transformStep glfw3
      (fun k => k == glfw3.GLFW_KEY_U || k == glfw3.GLFW_KEY_R || k == glfw3.GLFW_KEY_B) true
      ([] : List Transform) = [Transform.rotate 3.0 ⟨-1.0, 0.0, 0.0⟩] ∧
    transformStep glfw3
      (fun k => k == glfw3.GLFW_KEY_U || k == glfw3.GLFW_KEY_R || k == glfw3.GLFW_KEY_B) false
      ([] : List Transform) = [Transform.translate ⟨0.01, 0.0, 0.0⟩] ∧
    (∃ st1 calls, frame glfw3 32767 (fun _ => 0)
        (fun k => k == glfw3.GLFW_KEY_U || k == glfw3.GLFW_KEY_R || k == glfw3.GLFW_KEY_B) true
        (initialState ([] : List Transform) 0) = .ok (st1, calls) ∧
      st1.model = transformStep glfw3
        (fun k => k == glfw3.GLFW_KEY_U || k == glfw3.GLFW_KEY_R || k == glfw3.GLFW_KEY_B) true
        (initialState ([] : List Transform) 0).model) :=
  ⟨by decide, by decide,
   (transform_dispatch glfw3 (by decide) 32767 (fun _ => 0)
      (fun k => k == glfw3.GLFW_KEY_U || k == glfw3.GLFW_KEY_R || k == glfw3.GLFW_KEY_B) true
      ([] : List Transform) (initialState [] 0)).2.2.1 glfw3.GLFW_KEY_R (by decide),
   rfl, rfl,
   (transform_dispatch glfw3 (by decide) 32767 (fun _ => 0)
      (fun k => k == glfw3.GLFW_KEY_U || k == glfw3.GLFW_KEY_R || k == glfw3.GLFW_KEY_B) true
      ([] : List Transform) (initialState [] 0)).2.2.2.2 (Or.inl rfl)⟩

/-! ## Loops over the triangle index vector -/

/-- The counter of `for (int i = 0; i < n; i += 3)` takes exactly the multiples of 3 below
`n`. -/
theorem mem_loopIndices (n i : Nat) : i ∈ loopIndices n ↔ i % 3 = 0 ∧ i < n := by
  simp only [loopIndices, List.mem_map, List.mem_range]
  constructor
  · rintro ⟨k, hk, rfl⟩
    omega
  · rintro ⟨h3, hlt⟩
    exact ⟨i / 3, by omega, by omega⟩

theorem flattenTriangles_length (ts : List (Nat × Nat × Nat)) :
    (flattenTriangles ts).length = 3 * ts.length := by
  induction ts with
  | nil => rfl
  | cons t rest ih =>
    obtain ⟨a, b, c⟩ := t
    simp only [flattenTriangles, List.length_cons, ih]
    omega

theorem readTriangle_at (pre : List Nat) (a b c : Nat) (rest : List Nat) :
    readTriangle (pre ++ a :: b :: c :: rest) pre.length = .ok (a, b, c) := by
  have h0 : (pre ++ a :: b :: c :: rest)[pre.length]? = some a := by
    rw [List.getElem?_append_right (Nat.le_refl _)]; simp
  have h1 : (pre ++ a :: b :: c :: rest)[pre.length + 1]? = some b := by
    rw [List.getElem?_append_right (Nat.le_add_right _ _)]; simp
  have h2 : (pre ++ a :: b :: c :: rest)[pre.length + 2]? = some c := by
    rw [List.getElem?_append_right (Nat.le_add_right _ _)]; simp
  simp [readTriangle, h0, h1, h2]

theorem loop_triangles_aux {σ : Type} (step : σ → Nat × Nat × Nat → Except Fault σ) :
    ∀ (ts : List (Nat × Nat × Nat)) (pre : List Nat) (p : Nat), pre.length = 3 * p →
    ∀ s0 : σ,
    ((List.range' p ts.length).map (fun k => 3 * k)).foldlM
        (fun s i => readTriangle (pre ++ flattenTriangles ts) i >>= step s) s0
      = ts.foldlM step s0 := by
  intro ts
  induction ts with
  | nil => intro pre p _ s0; rfl
  | cons t rest ih =>
    intro pre p hp s0
    obtain ⟨a, b, c⟩ := t
    have hread : readTriangle (pre ++ a :: b :: c :: flattenTriangles rest) (3 * p)
        = .ok (a, b, c) := by
      rw [← hp]; exact readTriangle_at pre a b c _
    have hpre : (pre ++ [a, b, c]).length = 3 * (p + 1) := by
      simp only [List.length_append, List.length_cons, List.length_nil, hp]; omega
    have hih := ih (pre ++ [a, b, c]) (p + 1) hpre
    have hlist : pre ++ [a, b, c] ++ flattenTriangles rest
        = pre ++ a :: b :: c :: flattenTriangles rest := by simp
    rw [hlist] at hih
    simp only [flattenTriangles, List.length_cons, List.range'_succ, List.map_cons,
      List.foldlM_cons, hread]
    show step s0 (a, b, c) >>= _ = step s0 (a, b, c) >>= _
    congr 1
    funext s1
    exact hih s1

/-- Both loops over the index vector visit the triangles one by one, in order. -/
theorem loop_triangles {σ : Type} (step : σ → Nat × Nat × Nat → Except Fault σ)
    (ts : List (Nat × Nat × Nat)) (s0 : σ) :
    (loopIndices (flattenTriangles ts).length).foldlM
        (fun s i => readTriangle (flattenTriangles ts) i >>= step s) s0
      = ts.foldlM step s0 := by
  have h := loop_triangles_aux step ts [] 0 rfl s0
  have hn : (3 * ts.length + 2) / 3 = ts.length := by omega
  simpa [loopIndices, flattenTriangles_length, hn, List.range_eq_range'] using h

/-! ## Triangles to edges -/

theorem foldlM_pushEdges (ts : List (Nat × Nat × Nat)) : ∀ edges : List Nat,
    ts.foldlM pushEdges edges = .ok (edges ++ flattenPairs (edgePairs ts)) := by
  induction ts with
  | nil => intro edges; simp [edgePairs, flattenPairs, pure, Except.pure]
  | cons t rest ih =>
    intro edges
    obtain ⟨a, b, c⟩ := t
    simp only [List.foldlM_cons, pushEdges]
    show List.foldlM pushEdges (edges ++ [a, b, b, c, c, a]) rest = _
    rw [ih]
    simp [edgePairs, flattenPairs]

theorem flattenPairs_edgePairs_length (ts : List (Nat × Nat × Nat)) :
    (flattenPairs (edgePairs ts)).length = 6 * ts.length := by
  induction ts with
  | nil => rfl
  | cons t rest ih =>
    obtain ⟨a, b, c⟩ := t
    simp only [edgePairs, flattenPairs, List.length_cons, ih]
    omega

/-- C2: for the index vector of `T` triangles and an empty edge vector, `triangle2edge`
returns the pairs `(a,b), (b,c), (c,a)` of each triangle in triangle order, nothing removed
or reordered; the edge index sequence has length `6 * T`; for the single triangle `(0,1,2)`
it is `[(0,1),(1,2),(2,0)]`. -/
theorem triangle2edge_pairs (ts : List (Nat × Nat × Nat)) :
    triangle2edge (flattenTriangles ts) [] = .ok (flattenPairs (edgePairs ts)) ∧
    (flattenPairs (edgePairs ts)).length = 6 * ts.length ∧
    triangle2edge [0, 1, 2] [] = .ok (flattenPairs [(0, 1), (1, 2), (2, 0)]) := by
  refine ⟨?_, flattenPairs_edgePairs_length ts, rfl⟩
  unfold triangle2edge
  rw [loop_triangles pushEdges ts [], foldlM_pushEdges]
  simp

/-! ## Colours -/

theorem randfloat_range (RAND_MAX r : Nat) (hmax : 0 < RAND_MAX) (hr : r ≤ RAND_MAX) :
    0 ≤ randfloat RAND_MAX r ∧ randfloat RAND_MAX r ≤ 1 := by
  have hpos : (0 : ℚ) < (RAND_MAX : ℚ) := by exact_mod_cast hmax
  have hle : (r : ℚ) ≤ (RAND_MAX : ℚ) := by exact_mod_cast hr
  have h0 : (0 : ℚ) ≤ (r : ℚ) := by exact_mod_cast Nat.zero_le r
  unfold randfloat
  exact ⟨div_nonneg h0 hpos.le, (div_le_one hpos).mpr hle⟩

theorem colorLoop_range (RAND_MAX : Nat) (rand : RandSeq) (hmax : 0 < RAND_MAX)
    (hrand : ∀ k, rand k ≤ RAND_MAX) (n : Nat) : ∀ (colors : List (Vec3 ℚ)) (calls : Nat),
    (∀ c ∈ colors, c.InUnitClosed) →
    (∀ c ∈ (colorLoop RAND_MAX rand n colors calls).1, c.InUnitClosed) ∧
    (colorLoop RAND_MAX rand n colors calls).1.length = colors.length + n := by
  induction n with
  | zero => intro colors calls h; exact ⟨h, rfl⟩
  | succ n ih =>
    intro colors calls h
    have hstep : ∀ c ∈ colors ++ [(⟨randfloat RAND_MAX (rand calls),
        randfloat RAND_MAX (rand (calls + 1)), randfloat RAND_MAX (rand (calls + 2))⟩ : Vec3 ℚ)],
        c.InUnitClosed := by
      intro c hc
      rcases List.mem_append.mp hc with hc | hc
      · exact h c hc
      · rw [List.mem_singleton] at hc
        subst hc
        exact ⟨randfloat_range _ _ hmax (hrand _), randfloat_range _ _ hmax (hrand _),
          randfloat_range _ _ hmax (hrand _)⟩
    obtain ⟨h1, h2⟩ := ih _ (calls + 3) hstep
    refine ⟨h1, ?_⟩
    simp only [colorLoop, h2, List.length_append, List.length_cons, List.length_nil]
    omega

/-- C10 (as stated, refuted): when `rand()` returns `RAND_MAX` (here 32767), `randfloat()` is
exactly 1, which is not below 1, and `color_generator` produces the colour `(1, 1, 1)`. -/
theorem randfloat_reaches_one :
    randfloat 32767 32767 = 1 ∧ ¬ (randfloat 32767 32767 < 1) ∧
    (color_generator 32767 (fun _ => 32767) 1 [] 0).1 = [⟨1, 1, 1⟩] ∧
    ¬ (⟨1, 1, 1⟩ : Vec3 ℚ).InUnitHalfOpen := by
  have h : randfloat 32767 32767 = 1 := by norm_num [randfloat]
  refine ⟨h, by rw [h]; norm_num, ?_, ?_⟩
  · simp only [color_generator, Int.toNat_one, colorLoop, h, List.nil_append]
  · simp [Vec3.InUnitHalfOpen]

/-- C10 (amended): for every value `r` that `rand()` can return (`0 <= r <= RAND_MAX`),
`randfloat() = r / RAND_MAX` lies in the closed interval `[0, 1]`, and it is 1 at
`r = RAND_MAX`; hence every channel of every colour produced by `color_generator`, and of
the regenerated flat colour, is `>= 0` and `<= 1`. -/
theorem color_channels_in_unit_interval {M : Type} (K : KeyCodes) (RAND_MAX : Nat)
    (rand : RandSeq) (hmax : 0 < RAND_MAX) (hrand : ∀ k, rand k ≤ RAND_MAX)
    (n_vertices : Int) (calls : Nat) (keys : Keys) (st : RenderState M)
    (hC : keys K.GLFW_KEY_C = true) (hmode : st.currentMode = 2 ∨ st.currentMode = 4) :
    (∀ r, r ≤ RAND_MAX → 0 ≤ randfloat RAND_MAX r ∧ randfloat RAND_MAX r ≤ 1) ∧
    randfloat RAND_MAX RAND_MAX = 1 ∧
    (∀ c ∈ (color_generator RAND_MAX rand n_vertices [] calls).1, c.InUnitClosed) ∧
    (color_generator RAND_MAX rand n_vertices [] calls).1.length = n_vertices.toNat ∧
    (recolorStep K RAND_MAX rand keys st).flat_color
      = ⟨randfloat RAND_MAX (rand st.randCalls), randfloat RAND_MAX (rand (st.randCalls + 1)),
         randfloat RAND_MAX (rand (st.randCalls + 2))⟩ ∧
    (recolorStep K RAND_MAX rand keys st).flat_color.InUnitClosed := by
  have hgen := colorLoop_range RAND_MAX rand hmax hrand n_vertices.toNat [] calls
    (by intro c hc; cases hc)
  have hre : (recolorStep K RAND_MAX rand keys st).flat_color
      = ⟨randfloat RAND_MAX (rand st.randCalls), randfloat RAND_MAX (rand (st.randCalls + 1)),
         randfloat RAND_MAX (rand (st.randCalls + 2))⟩ := by
    rcases hmode with h | h <;> simp [recolorStep, hC, h]
  refine ⟨fun r hr => randfloat_range RAND_MAX r hmax hr, ?_, hgen.1, ?_, hre, ?_⟩
  · have hne : (RAND_MAX : ℚ) ≠ 0 := by exact_mod_cast hmax.ne'
    exact div_self hne
  · simpa [color_generator] using hgen.2
  · rw [hre]
    exact ⟨randfloat_range _ _ hmax (hrand _), randfloat_range _ _ hmax (hrand _),
      randfloat_range _ _ hmax (hrand _)⟩

theorem color_channels_in_unit_interval_witness :
    (∀ r, r ≤ 32767 → 0 ≤ randfloat 32767 r ∧ randfloat 32767 r ≤ 1) ∧
    randfloat 32767 32767 = 1 ∧
    (∀ c ∈ (color_generator 32767 (fun k => 100 * k % 32768) 2 [] 0).1, c.InUnitClosed) ∧
    (color_generator 32767 (fun k => 100 * k % 32768) 2 [] 0).1.length = (2 : Int).toNat ∧
    (recolorStep glfw3 32767 (fun k => 100 * k % 32768) (onlyKey glfw3.GLFW_KEY_C)
        (⟨(), 2, ⟨1.0, 0.5, 0.2⟩, 6⟩ : RenderState Unit)).flat_color
      = ⟨randfloat 32767 (100 * 6 % 32768), randfloat 32767 (100 * (6 + 1) % 32768),
         randfloat 32767 (100 * (6 + 2) % 32768)⟩ ∧
    (recolorStep glfw3 32767 (fun k => 100 * k % 32768) (onlyKey glfw3.GLFW_KEY_C)
        (⟨(), 2, ⟨1.0, 0.5, 0.2⟩, 6⟩ : RenderState Unit)).flat_color.InUnitClosed :=
  color_channels_in_unit_interval glfw3 32767 (fun k => 100 * k % 32768) (by decide)
    (fun k => by show 100 * k % 32768 ≤ 32767; omega)
    2 0 (onlyKey glfw3.GLFW_KEY_C) ⟨(), 2, ⟨1.0, 0.5, 0.2⟩, 6⟩ (by decide) (Or.inl rfl)

/-! ## Normals -/

theorem stored_getElem? {α : Type} (normals : List α) (a b c v : Nat) (n : α)
    (ha : a < normals.length) (hb : b < normals.length) (hc : c < normals.length) :
    (((normals.set c n).set b n).set a n)[v]? =
      if hasCorner v (a, b, c) then some n else normals[v]? := by
  simp only [List.getElem?_set, List.length_set, hasCorner]
  by_cases h1 : a = v
  · subst h1; simp [ha]
  · by_cases h2 : b = v
    · subst h2; simp [h1, hb]
    · by_cases h3 : c = v
      · subst h3; simp [h1, h2, hc]
      · simp [h1, h2, h3]

section NormalLemmas

variable {F : Type} [Zero F] [Add F] [Sub F] [Mul F] [InverseSqrt F]

theorem lastTriangle_cons (v : Nat) (t : Nat × Nat × Nat) (ts : List (Nat × Nat × Nat)) :
    lastTriangle v (t :: ts) =
      match lastTriangle v ts with
      | some t1 => some t1
      | none => if hasCorner v t then some t else none := by
  unfold lastTriangle
  rw [List.reverse_cons, List.find?_append]
  cases h : List.find? (hasCorner v) ts.reverse with
  | some t1 => simp
  | none => cases hc : hasCorner v t <;> simp [List.find?, hc]

theorem storeNormal_ok (vertices normals : List (Vec3 F)) (t : Nat × Nat × Nat)
    (hlen : normals.length = vertices.length)
    (ht : t.1 < vertices.length ∧ t.2.1 < vertices.length ∧ t.2.2 < vertices.length) :
    storeNormal vertices normals t =
      .ok (((normals.set t.2.2 (cornerNormal vertices t)).set t.2.1
        (cornerNormal vertices t)).set t.1 (cornerNormal vertices t)) := by
  obtain ⟨ha, hb, hc⟩ := ht
  have ea : vertices[t.1]? = some (vertices.getD t.1 Vec3.zero) := by
    simp [List.getD, List.getElem?_eq_getElem ha]
  have eb : vertices[t.2.1]? = some (vertices.getD t.2.1 Vec3.zero) := by
    simp [List.getD, List.getElem?_eq_getElem hb]
  have ec : vertices[t.2.2]? = some (vertices.getD t.2.2 Vec3.zero) := by
    simp [List.getD, List.getElem?_eq_getElem hc]
  simp only [storeNormal, ea, eb, ec, cornerNormal]
  simp [assignAt, hlen, ha, hb, hc, bind, Except.bind]

theorem foldlM_storeNormal (vertices : List (Vec3 F)) (ts : List (Nat × Nat × Nat))
    (hr : InRange vertices.length ts) : ∀ normals0 : List (Vec3 F),
    normals0.length = vertices.length →
    ∃ normals, ts.foldlM (storeNormal vertices) normals0 = .ok normals ∧
      normals.length = vertices.length ∧
      ∀ v, normals[v]? =
        match lastTriangle v ts with
        | some t => some (cornerNormal vertices t)
        | none => normals0[v]? := by
  induction ts with
  | nil =>
    intro normals0 hlen
    exact ⟨normals0, rfl, hlen, fun v => by simp [lastTriangle]⟩
  | cons t rest ih =>
    intro normals0 hlen
    have ht := hr t (List.mem_cons_self _ _)
    have hrest : InRange vertices.length rest := fun u hu => hr u (List.mem_cons_of_mem _ hu)
    have hstep := storeNormal_ok vertices normals0 t hlen ht
    have hlen1 : (((normals0.set t.2.2 (cornerNormal vertices t)).set t.2.1
        (cornerNormal vertices t)).set t.1 (cornerNormal vertices t)).length
        = vertices.length := by simp [hlen]
    obtain ⟨normals, hfold, hl, hpt⟩ := ih hrest _ hlen1
    refine ⟨normals, ?_, hl, ?_⟩
    · simp only [List.foldlM_cons, hstep]
      exact hfold
    · intro v
      rw [hpt v, lastTriangle_cons]
      cases hlast : lastTriangle v rest with
      | some t1 => rfl
      | none =>
        obtain ⟨a, b, c⟩ := t
        simp only
        rw [stored_getElem? normals0 a b c v _ (hlen ▸ ht.1) (hlen ▸ ht.2.1) (hlen ▸ ht.2.2)]
        split_ifs with hcorner
        · rfl
        · cases hn : normals0[v]? <;> rfl

theorem resize_nil {α : Type} (n : Nat) (val : α) : resize [] n val = List.replicate n val := by
  simp [resize]

/-- The normal pass on in-range triangles: it returns, the result has one entry per vertex,
and each entry is the normal of the last triangle with that corner, or zero. -/
theorem normalPass_spec (vertices : List (Vec3 F)) (ts : List (Nat × Nat × Nat))
    (hr : InRange vertices.length ts) :
    ∃ normals, normalPass vertices [] (flattenTriangles ts) = .ok normals ∧
      normals.length = vertices.length ∧
      ∀ v, v < vertices.length → normals[v]? =
        match lastTriangle v ts with
        | some t => some (cornerNormal vertices t)
        | none => some Vec3.zero := by
  obtain ⟨normals, hfold, hl, hpt⟩ := foldlM_storeNormal vertices ts hr
    (List.replicate vertices.length Vec3.zero) (by simp)
  refine ⟨normals, ?_, hl, ?_⟩
  · unfold normalPass
    rw [loop_triangles (storeNormal vertices) ts, resize_nil]
    exact hfold
  · intro v hv
    rw [hpt v]
    cases lastTriangle v ts with
    | some t => rfl
    | none => simp [hv]

end NormalLemmas

/-! ## The scalar model -/

theorem Scalar.zero_def : (0 : Scalar) = .fin 0 := rfl

theorem Scalar.one_def : (1 : Scalar) = .fin 1 := rfl

theorem Scalar.fin_add (a b : ℚ) : Scalar.fin a + Scalar.fin b = .fin (a + b) := rfl

theorem Scalar.fin_sub (a b : ℚ) : Scalar.fin a - Scalar.fin b = .fin (a - b) := by
  show Scalar.add (.fin a) (Scalar.neg (.fin b)) = _
  simp [Scalar.add, Scalar.neg, sub_eq_add_neg]

theorem Scalar.fin_mul (a b : ℚ) : Scalar.fin a * Scalar.fin b = .fin (a * b) := rfl

theorem Scalar.fin_mul_inf (a : ℚ) (s : Bool) :
    Scalar.fin a * Scalar.inf s = if a = 0 then .nan else .inf (s != decide (a < 0)) := rfl

theorem Scalar.nan_add_nan : Scalar.nan + Scalar.nan = Scalar.nan := rfl

theorem Scalar.nan_mul_nan : Scalar.nan * Scalar.nan = Scalar.nan := rfl

theorem inversesqrt_fin (q : ℚ) :
    inversesqrt (Scalar.fin q) =
      if q < 0 then .nan
      else if q = 0 then .inf false
      else if Rat.sqrt q * Rat.sqrt q = q then .fin (Rat.sqrt q)⁻¹
      else .untracked := rfl

theorem rat_sqrt_one : Rat.sqrt 1 = 1 := by
  rw [show (1 : ℚ) = 1 * 1 by norm_num, Rat.sqrt_eq]; norm_num

theorem rat_sqrt_sixteen : Rat.sqrt 16 = 4 := by
  rw [show (16 : ℚ) = 4 * 4 by norm_num, Rat.sqrt_eq]; norm_num

theorem zeroOneExact_scalar : ZeroOneExact Scalar := by
  constructor <;>
    simp [Scalar.zero_def, Scalar.one_def, Scalar.fin_add, Scalar.fin_sub, Scalar.fin_mul,
      inversesqrt_fin, rat_sqrt_one]

/-! ## The normals of `load_obj` -/

/-- The normal the pass computes is the one written out in coordinates. -/
theorem cornerNormal_eq {F : Type} [Zero F] [Add F] [Sub F] [Mul F] [InverseSqrt F]
    (vertices : List (Vec3 F)) (a b c : Nat) :
    cornerNormal vertices (a, b, c)
      = scaledToUnit (edgeCross (vertices.getD a ⟨0, 0, 0⟩) (vertices.getD b ⟨0, 0, 0⟩)
          (vertices.getD c ⟨0, 0, 0⟩)) := rfl

theorem lastTriangle_mem (v : Nat) (ts : List (Nat × Nat × Nat)) (t : Nat × Nat × Nat)
    (h : lastTriangle v ts = some t) : t ∈ ts :=
  List.mem_reverse.mp (List.mem_of_find?_eq_some h)

theorem lengthSq_pos {F : Type} [LinearOrderedField F] (k : Vec3 F)
    (hk : k ≠ ⟨0, 0, 0⟩) : 0 < lengthSq k := by
  by_contra h
  apply hk
  have hx := mul_self_nonneg k.x
  have hy := mul_self_nonneg k.y
  have hz := mul_self_nonneg k.z
  have h0 : k.x * k.x + k.y * k.y + k.z * k.z ≤ 0 := not_lt.mp h
  have ex : k.x = 0 := mul_self_eq_zero.mp (by linarith)
  have ey : k.y = 0 := mul_self_eq_zero.mp (by linarith)
  have ez : k.z = 0 := mul_self_eq_zero.mp (by linarith)
  cases k
  simp only at ex ey ez
  rw [ex, ey, ez]

/-- With an exact inverse square root, scaling a non-zero vector gives a unit vector. -/
theorem lengthSq_scaledToUnit {F : Type} [LinearOrderedField F] [InverseSqrt F]
    (hsqrt : ∀ x : F, 0 < x → inversesqrt x * inversesqrt x * x = 1) (k : Vec3 F)
    (hk : k ≠ ⟨0, 0, 0⟩) :
    lengthSq (scaledToUnit k) = 1 ∧ scaledToUnit k ≠ ⟨0, 0, 0⟩ := by
  have h1 := hsqrt (lengthSq k) (lengthSq_pos k hk)
  have hunit : lengthSq (scaledToUnit k) = 1 := by
    have e : lengthSq (scaledToUnit k)
        = inversesqrt (lengthSq k) * inversesqrt (lengthSq k)
          * (k.x * k.x + k.y * k.y + k.z * k.z) := by
      simp only [scaledToUnit, lengthSq]
      ring
    rw [e]
    exact h1
  refine ⟨hunit, ?_⟩
  intro h0
  rw [h0] at hunit
  simp [lengthSq] at hunit

theorem decimalValue_append_singleton (ds : List Char) (c : Char) :
    decimalValue (ds ++ [c]) = 10 * decimalValue ds + (c.toNat - 48) := by
  simp [decimalValue, List.foldl_append]

theorem digitChar_isdigit (m : Nat) (h : m < 10) :
    isdigit (Nat.digitChar m) = true ∧ (Nat.digitChar m).toNat - 48 = m := by
  interval_cases m <;> exact ⟨by decide, by decide⟩

theorem toDigitsCore_append (fuel : Nat) : ∀ (n : Nat) (ds : List Char),
    Nat.toDigitsCore 10 fuel n ds = Nat.toDigitsCore 10 fuel n [] ++ ds := by
  induction fuel with
  | zero => intro n ds; simp [Nat.toDigitsCore]
  | succ fuel ih =>
    intro n ds
    simp only [Nat.toDigitsCore]
    split_ifs with h
    · simp
    · rw [ih (n / 10) (_ :: ds), ih (n / 10) [_]]
      simp

theorem toDigitsCore_spec (fuel : Nat) : ∀ n : Nat, n < fuel →
    (∀ c ∈ Nat.toDigitsCore 10 fuel n [], isdigit c = true) ∧
    Nat.toDigitsCore 10 fuel n [] ≠ [] ∧
    decimalValue (Nat.toDigitsCore 10 fuel n []) = n := by
  induction fuel with
  | zero => intro n h; omega
  | succ fuel ih =>
    intro n hn
    have hd := digitChar_isdigit (n % 10) (Nat.mod_lt _ (by decide))
    simp only [Nat.toDigitsCore]
    split_ifs with h
    · refine ⟨?_, by simp, ?_⟩
      · intro c hc
        rw [List.mem_singleton] at hc
        rw [hc]; exact hd.1
      · have : decimalValue [Nat.digitChar (n % 10)] = (Nat.digitChar (n % 10)).toNat - 48 := by
          simp [decimalValue]
        rw [this, hd.2]; omega
    · rw [toDigitsCore_append]
      have hlt : n / 10 < fuel := by omega
      obtain ⟨h1, _, h3⟩ := ih (n / 10) hlt
      refine ⟨?_, by simp, ?_⟩
      · intro c hc
        rcases List.mem_append.mp hc with hc | hc
        · exact h1 c hc
        · rw [List.mem_singleton] at hc
          rw [hc]; exact hd.1
      · rw [decimalValue_append_singleton, h3, hd.2]; omega

/-- The numeral `Nat.repr` prints is a non-empty string of digits that denotes the number. -/
theorem decimal_spec (n : Nat) :
    (∀ c ∈ decimal n, isdigit c = true) ∧ decimal n ≠ [] ∧ decimalValue (decimal n) = n := by
  have h := toDigitsCore_spec (n + 1) n (Nat.lt_succ_self n)
  simpa [decimal, Nat.repr, Nat.toDigits, List.asString] using h

/-! ## Extraction of indices -/

theorem takeWhile_token (p : Char → Bool) (ds rest : List Char) (hd : ∀ c ∈ ds, p c = true)
    (hrest : ∀ c, rest.head? = some c → p c = false) :
    (ds ++ rest).takeWhile p = ds ∧ (ds ++ rest).dropWhile p = rest := by
  induction ds with
  | nil =>
    cases rest with
    | nil => simp
    | cons r rs =>
      have := hrest r rfl
      simp [List.takeWhile, List.dropWhile, this]
  | cons d ds ih =>
    have hd1 := hd d (List.mem_cons_self _ _)
    have ih1 := ih (fun c hc => hd c (List.mem_cons_of_mem _ hc))
    simp [List.takeWhile, List.dropWhile, hd1, ih1]

theorem dropWhile_spaces (ws tail : List Char) (hws : ∀ c ∈ ws, isspace c = true)
    (htail : ∀ c, tail.head? = some c → isspace c = false) :
    (ws ++ tail).dropWhile isspace = tail := by
  have := (takeWhile_token isspace ws tail hws htail).2
  exact this

theorem isdigit_not_space (c : Char) (h : isdigit c = true) :
    isspace c = false ∧ (c == '-') = false ∧ (c == '+') = false := by
  simp only [isdigit, Bool.and_eq_true, decide_eq_true_eq] at h
  refine ⟨?_, ?_, ?_⟩
  · simp only [isspace, Bool.or_eq_false_iff, Bool.and_eq_false_iff, beq_eq_false_iff_ne,
      decide_eq_false_iff_not]
    omega
  · rw [beq_eq_false_iff_ne]
    intro hc; rw [hc] at h; revert h; decide
  · rw [beq_eq_false_iff_ne]
    intro hc; rw [hc] at h; revert h; decide

/-- Extraction of a decimal numeral that fits 16 bits: after optional white space the digits
are consumed and their value is stored; the stream does not fail. -/
theorem extractUShort_token (ws ds rest : List Char) (hws : ∀ c ∈ ws, isspace c = true)
    (hd : ∀ c ∈ ds, isdigit c = true) (hne : ds ≠ [])
    (hrest : ∀ c, rest.head? = some c → isdigit c = false)
    (hval : decimalValue ds ≤ 65535) :
    extractUShort ⟨ws ++ (ds ++ rest), false⟩ = ⟨some (decimalValue ds), ⟨rest, false⟩⟩ := by
  obtain ⟨d, ds1, rfl⟩ := List.exists_cons_of_ne_nil hne
  have hd1 := hd d (List.mem_cons_self _ _)
  obtain ⟨hsp, hminus, hplus⟩ := isdigit_not_space d hd1
  have hdrop : (ws ++ (d :: ds1 ++ rest)).dropWhile isspace = d :: (ds1 ++ rest) := by
    apply dropWhile_spaces ws _ hws
    intro c hc
    simp only [List.cons_append, List.head?_cons, Option.some.injEq] at hc
    rw [← hc]; exact hsp
  obtain ⟨htake, hdrop2⟩ := takeWhile_token isdigit (d :: ds1) rest hd hrest
  have hnotgt : ¬ decimalValue (d :: ds1) > 65535 := by omega
  simp only [List.cons_append] at htake hdrop2
  simp only [extractUShort, hdrop, hminus, hplus, Bool.or_self, Bool.false_eq_true, if_false,
    htake, hdrop2, List.isEmpty_cons, hnotgt]

theorem decrement_pos (i : Nat) (h1 : 1 ≤ i) (h2 : i ≤ 65535) : decrement i = i - 1 := by
  unfold decrement; omega

/-- A face line `f i j k` with indices that fit 16 bits, followed by anything that starts
with a space (or by nothing), parses to `(i, j, k)` decremented. -/
theorem parseFace_faceLine (i j k : Nat) (extra : List Char)
    (hi : i ≤ 65535) (hj : j ≤ 65535) (hk : k ≤ 65535)
    (hextra : ∀ c, extra.head? = some c → isdigit c = false) :
    parseFace (faceLine i j k ++ extra) = .ok (decrement i, decrement j, decrement k) := by
  obtain ⟨di, ni, vi⟩ := decimal_spec i
  obtain ⟨dj, nj, vj⟩ := decimal_spec j
  obtain ⟨dk, nk, vk⟩ := decimal_spec k
  have hsp : ∀ c ∈ [' '], isspace c = true := by
    intro c hc; rw [List.mem_singleton] at hc; rw [hc]; decide
  have hnd : ∀ (tail : List Char) (c : Char), (' ' :: tail).head? = some c → isdigit c = false := by
    intro tail c hc
    simp only [List.head?_cons, Option.some.injEq] at hc
    rw [← hc]; decide
  have e1 := extractUShort_token [] (decimal i) (' ' :: (decimal j ++ ' ' :: (decimal k ++ extra)))
    (by intro c hc; cases hc) di ni (hnd _) (by omega)
  have e2 := extractUShort_token [' '] (decimal j) (' ' :: (decimal k ++ extra))
    hsp dj nj (hnd _) (by omega)
  have e3 := extractUShort_token [' '] (decimal k) extra hsp dk nk hextra (by omega)
  have hline : (faceLine i j k ++ extra).drop 2
      = [] ++ (decimal i ++ ' ' :: (decimal j ++ ' ' :: (decimal k ++ extra))) := by
    simp [faceLine]
  simp only [List.singleton_append] at e2 e3
  simp only [parseFace, hline, e1, e2, e3, vi, vj, vk]

/-! ## Reading lines -/

theorem getlines_line (l rest : List Char) (h : '\n' ∉ l) :
    getlines (l ++ '\n' :: rest) = l :: getlines rest := by
  induction l with
  | nil => simp [getlines]
  | cons c l ih =>
    have hc : c ≠ '\n' := fun e => h (by rw [e]; exact List.mem_cons_self _ _)
    have hl : '\n' ∉ l := fun e => h (List.mem_cons_of_mem _ e)
    have e := ih hl
    simp only [List.cons_append, getlines, hc, if_false]
    show (match getlines (l ++ '\n' :: rest) with
      | [] => [[c]]
      | line :: rest => (c :: line) :: rest) = _
    rw [e]

theorem getlines_joinLines (ls : List (List Char)) (h : ∀ l ∈ ls, '\n' ∉ l) :
    getlines (joinLines ls) = ls := by
  induction ls with
  | nil => rfl
  | cons l rest ih =>
    simp only [joinLines]
    rw [getlines_line l _ (h l (List.mem_cons_self _ _)),
      ih (fun m hm => h m (List.mem_cons_of_mem _ hm))]

/-! ## Lines of an OBJ file -/

section Lines

variable {F : Type} [FloatExtract F]

theorem processLine_other (st : List (Vec3 F) × List Nat) (line : List Char)
    (hv : line.take 2 ≠ ['v', ' ']) (hf : line.take 2 ≠ ['f', ' ']) :
    processLine st line = .ok st := by
  simp [processLine, hv, hf]

theorem processLine_face (st : List (Vec3 F) × List Nat) (i j k : Nat) (extra : List Char)
    (hi : i ≤ 65535) (hj : j ≤ 65535) (hk : k ≤ 65535)
    (hextra : ∀ c, extra.head? = some c → isdigit c = false) :
    processLine st (faceLine i j k ++ extra)
      = .ok (st.1, st.2 ++ [decrement i, decrement j, decrement k]) := by
  have hp := parseFace_faceLine i j k extra hi hj hk hextra
  have h1 : (faceLine i j k ++ extra).take 2 = ['f', ' '] := by simp [faceLine]
  have h2 : (faceLine i j k ++ extra).take 2 ≠ ['v', ' '] := by rw [h1]; decide
  simp only [processLine, h1, h2, if_false, if_true, hp]
  rfl

theorem processLine_vertex (st : List (Vec3 F) × List Nat) (body : List Char) (p : Vec3 F)
    (h : ExtractsTo body p) :
    processLine st ('v' :: ' ' :: body) = .ok (st.1 ++ [p], st.2) := by
  obtain ⟨hx, hy, hz⟩ := h
  have hpv : parseVertex ('v' :: ' ' :: body) = .ok p := by
    simp only [parseVertex, List.drop_succ_cons, List.drop_zero, hx, hy, hz]
  have h1 : ('v' :: ' ' :: body).take 2 = ['v', ' '] := by simp
  simp only [processLine, h1, if_true, hpv]
  rfl

theorem processLine_face_grows (st st1 : List (Vec3 F) × List Nat) (line : List Char)
    (hf : line.take 2 = ['f', ' ']) (h : processLine st line = .ok st1) :
    st1.1 = st.1 ∧ st1.2.length = st.2.length + 3 := by
  have hv : line.take 2 ≠ ['v', ' '] := by rw [hf]; decide
  simp only [processLine, hv, hf, if_false, if_true] at h
  cases hp : parseFace line with
  | error e => rw [hp] at h; cases h
  | ok t =>
    rw [hp] at h
    cases h
    simp

end Lines

theorem positions_append {F : Type} (l1 l2 : List (ObjLine F)) :
    positions (l1 ++ l2) = positions l1 ++ positions l2 := by
  induction l1 with
  | nil => rfl
  | cons l rest ih => cases l <;> simp [positions, ih]

theorem positions_replicate_vertex {F : Type} (n : Nat) (body : List Char) (p : Vec3 F) :
    positions (List.replicate n (ObjLine.vertex body p)) = List.replicate n p := by
  induction n with
  | zero => rfl
  | succ n ih => simp [List.replicate_succ, positions, ih]

theorem getlines_single (l : List Char) (hnl : '\n' ∉ l) (hne : l ≠ []) : getlines l = [l] := by
  induction l with
  | nil => exact absurd rfl hne
  | cons c l ih =>
    have hc : c ≠ '\n' := fun e => hnl (by rw [e]; exact List.mem_cons_self _ _)
    have hl : '\n' ∉ l := fun e => hnl (List.mem_cons_of_mem _ e)
    cases l with
    | nil => simp [getlines, hc]
    | cons d l1 =>
      have e := ih hl (by simp)
      simp only [getlines, hc, if_false]
      show (match getlines (d :: l1) with
        | [] => [[c]]
        | line :: rest => (c :: line) :: rest) = _
      rw [e]

/-- A missing line end after the last line does not change what the `getline` loop does. -/
theorem foldlM_getlines_open {F : Type} [FloatExtract F] (ls : List (List Char)) :
    (∀ l ∈ ls, '\n' ∉ l) → ∀ st : List (Vec3 F) × List Nat,
    (getlines (joinLinesOpen ls)).foldlM processLine st = ls.foldlM processLine st := by
  induction ls with
  | nil => intro _ st; rfl
  | cons l rest ih =>
    intro h st
    have hl := h l (List.mem_cons_self _ _)
    cases rest with
    | nil =>
      by_cases hne : l = []
      · subst hne
        simp [joinLinesOpen, getlines, processLine, pure, Except.pure, bind, Except.bind]
      · simp only [joinLinesOpen, getlines_single l hl hne]
    | cons m rest1 =>
      have hrest := ih (fun x hx => h x (List.mem_cons_of_mem _ hx))
      simp only [joinLinesOpen, getlines_line l _ hl, List.foldlM_cons]
      congr 1
      funext st1
      exact hrest st1

section LoadObj

variable {F : Type} [FloatExtract F]

theorem faceLine_no_newline (i j k : Nat) : '\n' ∉ faceLine i j k := by
  have hdig : ∀ n : Nat, '\n' ∉ decimal n := by
    intro n h
    have := (decimal_spec n).1 _ h
    revert this; decide
  intro h
  simp only [faceLine, List.mem_cons, List.mem_append] at h
  rcases h with h | h | h | h | h | h | h
  · revert h; decide
  · revert h; decide
  · exact hdig i h
  · revert h; decide
  · exact hdig j h
  · revert h; decide
  · exact hdig k h

theorem text_no_newline (V : Nat) (l : ObjLine F) (h : l.WellFormed V) : '\n' ∉ l.text := by
  cases l with
  | vertex body p =>
    intro hm
    simp only [ObjLine.text, List.mem_cons] at hm
    rcases hm with hm | hm | hm
    · revert hm; decide
    · revert hm; decide
    · exact h.1 hm
  | face i j k => exact faceLine_no_newline i j k
  | other line => exact h.1

/-- The `getline` loop on well-formed lines whose indices fit 16 bits: the positions and the
decremented index triples are appended in file order. -/
theorem parse_wellFormed (V : Nat) (ls : List (ObjLine F)) :
    (∀ l ∈ ls, l.WellFormed V ∧ l.FitsUShort) →
    ∀ (vs : List (Vec3 F)) (ts : List Nat),
    (ls.map ObjLine.text).foldlM processLine (vs, ts)
      = .ok (vs ++ positions ls, ts ++ flattenTriangles (triples ls)) := by
  induction ls with
  | nil => intro _ vs ts; simp [positions, triples, flattenTriangles, pure, Except.pure]
  | cons l rest ih =>
    intro h vs ts
    have hl := h l (List.mem_cons_self _ _)
    have hrest := ih (fun m hm => h m (List.mem_cons_of_mem _ hm))
    cases l with
    | vertex body p =>
      have e := processLine_vertex (vs, ts) body p hl.1.2
      simp only [List.map_cons, List.foldlM_cons, ObjLine.text, e]
      show List.foldlM processLine (vs ++ [p], ts) _ = _
      rw [hrest]
      simp [positions, triples]
    | face i j k =>
      obtain ⟨⟨⟨hi1, _⟩, ⟨hj1, _⟩, ⟨hk1, _⟩⟩, hi, hj, hk⟩ := hl
      have e := processLine_face (vs, ts) i j k [] hi hj hk (by intro c hc; cases hc)
      rw [List.append_nil] at e
      simp only [List.map_cons, List.foldlM_cons, ObjLine.text, e]
      show List.foldlM processLine (vs, ts ++ [decrement i, decrement j, decrement k]) _ = _
      rw [hrest, decrement_pos i hi1 hi, decrement_pos j hj1 hj, decrement_pos k hk1 hk]
      simp [positions, triples, flattenTriangles]
    | other line =>
      have e := processLine_other (vs, ts) line hl.1.2.1 hl.1.2.2
      simp only [List.map_cons, List.foldlM_cons, ObjLine.text, e]
      show List.foldlM processLine (vs, ts) _ = _
      rw [hrest]
      simp [positions, triples]

theorem triples_inRange (V : Nat) (ls : List (ObjLine F)) (h : ∀ l ∈ ls, l.WellFormed V) :
    InRange V (triples ls) := by
  induction ls with
  | nil => intro t ht; cases ht
  | cons l rest ih =>
    have hrest := ih (fun m hm => h m (List.mem_cons_of_mem _ hm))
    have hl := h l (List.mem_cons_self _ _)
    cases l with
    | vertex body p => exact hrest
    | other line => exact hrest
    | face i j k =>
      intro t ht
      simp only [triples, List.mem_cons] at ht
      rcases ht with ht | ht
      · obtain ⟨⟨hi1, hi2⟩, ⟨hj1, hj2⟩, ⟨hk1, hk2⟩⟩ := hl
        subst ht
        exact ⟨by show i - 1 < V; omega, by show j - 1 < V; omega, by show k - 1 < V; omega⟩
      · exact hrest t ht

variable [Zero F] [Add F] [Sub F] [Mul F] [InverseSqrt F]

theorem load_obj_joinLines (ls : List (List Char)) (h : ∀ l ∈ ls, '\n' ∉ l)
    (vs ns : List (Vec3 F)) (ts : List Nat) :
    load_obj (some (joinLines ls)) vs ns ts =
      (ls.foldlM processLine (vs, ts) >>= fun st =>
        normalPass st.1 ns st.2 >>= fun n => .ok ⟨st.1, n, st.2⟩) := by
  simp only [load_obj, getlines_joinLines ls h]

end LoadObj

/-- C1 (amended): for every well-formed OBJ text with `V` lines `v x y z` and `T` lines
`f i j k` whose indices satisfy `1 <= i,j,k <= V` and fit the 16 bits of a `GLushort`
(`i,j,k <= 65535`), with or without a line end after the last line and starting from empty
output vectors, `load_obj` returns with exactly the
`V` positions in file order and exactly the `T` index triples in file order, the triple
stored for `f i j k` being `(i-1, j-1, k-1)`, so that every stored index lies in `[0, V)`. -/
theorem load_obj_well_formed {F : Type} [Zero F] [Add F] [Sub F] [Mul F] [InverseSqrt F]
    [FloatExtract F] (lines : List (ObjLine F)) (eol : Bool) (hwf : WellFormedObj lines)
    (hfit : ∀ l ∈ lines, l.FitsUShort) :
    ∃ mesh, load_obj (some (if eol then objText lines else objTextOpen lines)) [] [] []
        = .ok mesh ∧
      mesh.vertices = positions lines ∧
      mesh.triangles = flattenTriangles (triples lines) ∧
      InRange (positions lines).length (triples lines) := by
  have hnl : ∀ l ∈ lines.map ObjLine.text, '\n' ∉ l := by
    intro l hl
    obtain ⟨m, hm, rfl⟩ := List.mem_map.mp hl
    exact text_no_newline _ m (hwf m hm)
  have hparse := parse_wellFormed (positions lines).length lines
    (fun l hl => ⟨hwf l hl, hfit l hl⟩) [] []
  have hrange := triples_inRange (positions lines).length lines hwf
  obtain ⟨normals, hpass, _, _⟩ := normalPass_spec (positions lines) (triples lines) hrange
  refine ⟨⟨positions lines, normals, flattenTriangles (triples lines)⟩, ?_, rfl, rfl, hrange⟩
  cases eol
  · simp only [Bool.false_eq_true, if_false, objTextOpen, load_obj,
      foldlM_getlines_open _ hnl, hparse]
    simp only [List.nil_append]
    show (normalPass (positions lines) [] (flattenTriangles (triples lines)) >>= _) = _
    rw [hpass]
    rfl
  · simp only [if_true]
    rw [objText, load_obj_joinLines _ hnl, hparse]
    simp only [List.nil_append]
    show (normalPass (positions lines) [] (flattenTriangles (triples lines)) >>= _) = _
    rw [hpass]
    rfl

theorem extractsTo_zero : ExtractsTo "0 0 0".toList (⟨0, 0, 0⟩ : Vec3 Scalar) := by
  simp [ExtractsTo, extractFloat, extractDecimal, isspace, isdigit, decimalValue,
        Scalar.zero_def, Scalar.one_def]

theorem load_obj_well_formed_witness :
    WellFormedObj [ObjLine.other "# one triangle".toList,
      .vertex "0 0 0".toList (⟨0, 0, 0⟩ : Vec3 Scalar),
      .vertex "1.5 0 0".toList ⟨.fin (3 / 2), 0, 0⟩,
      .face 1 2 3, .vertex "0 -2 0.25".toList ⟨0, .fin (-2), .fin (1 / 4)⟩] ∧
    (∀ l ∈ [ObjLine.other "# one triangle".toList,
      .vertex "0 0 0".toList (⟨0, 0, 0⟩ : Vec3 Scalar),
      .vertex "1.5 0 0".toList ⟨.fin (3 / 2), 0, 0⟩,
      .face 1 2 3, .vertex "0 -2 0.25".toList ⟨0, .fin (-2), .fin (1 / 4)⟩], l.FitsUShort) ∧
    ∃ mesh, load_obj (some "# one triangle\nv 0 0 0\nv 1.5 0 0\nf 1 2 3\nv 0 -2 0.25".toList)
        [] [] [] = .ok mesh ∧
      mesh.vertices
        = [(⟨0, 0, 0⟩ : Vec3 Scalar), ⟨.fin (3 / 2), 0, 0⟩, ⟨0, .fin (-2), .fin (1 / 4)⟩] ∧
      mesh.triangles = [0, 1, 2] ∧
      InRange 3 [(0, 1, 2)] := by
  have hwf : WellFormedObj [ObjLine.other "# one triangle".toList,
      .vertex "0 0 0".toList (⟨0, 0, 0⟩ : Vec3 Scalar),
      .vertex "1.5 0 0".toList ⟨.fin (3 / 2), 0, 0⟩,
      .face 1 2 3, .vertex "0 -2 0.25".toList ⟨0, .fin (-2), .fin (1 / 4)⟩] := by
    intro l hl
    simp only [List.mem_cons, List.mem_singleton, List.not_mem_nil, or_false] at hl
    rcases hl with rfl | rfl | rfl | rfl | rfl
    · exact ⟨by decide, by decide, by decide⟩
    · exact ⟨by decide, extractsTo_zero⟩
    · refine ⟨by decide, ?_⟩
      simp [ExtractsTo, extractFloat, extractDecimal, isspace, isdigit, decimalValue,
        Scalar.zero_def, Scalar.one_def]
      norm_num
    · simp [ObjLine.WellFormed, positions]
    · refine ⟨by decide, ?_⟩
      simp [ExtractsTo, extractFloat, extractDecimal, isspace, isdigit, decimalValue,
        Scalar.zero_def, Scalar.one_def]
      norm_num
  have hfit : ∀ l ∈ [ObjLine.other "# one triangle".toList,
      .vertex "0 0 0".toList (⟨0, 0, 0⟩ : Vec3 Scalar),
      .vertex "1.5 0 0".toList ⟨.fin (3 / 2), 0, 0⟩,
      .face 1 2 3, .vertex "0 -2 0.25".toList ⟨0, .fin (-2), .fin (1 / 4)⟩], l.FitsUShort := by
    intro l hl
    simp only [List.mem_cons, List.mem_singleton, List.not_mem_nil, or_false] at hl
    rcases hl with rfl | rfl | rfl | rfl | rfl <;> simp [ObjLine.FitsUShort]
  exact ⟨hwf, hfit, load_obj_well_formed _ false hwf hfit⟩

theorem processLine_face_error {F : Type} [FloatExtract F] (st : List (Vec3 F) × List Nat)
    (line : List Char) (e : Fault) (hf : line.take 2 = ['f', ' '])
    (hp : parseFace line = .error e) : processLine st line = .error e := by
  have hv : line.take 2 ≠ ['v', ' '] := by rw [hf]; decide
  simp only [processLine, hv, hf, if_false, if_true, hp]
  rfl

/-- The text with `n` lines `v 0 0 0` and the line `f 65536 1 1`, for any `n`. -/
theorem overflow_lines (n : Nat) :
    (positions (List.replicate n (ObjLine.vertex "0 0 0".toList (⟨0, 0, 0⟩ : Vec3 Scalar))
      ++ [ObjLine.face 65536 1 1])).length = n ∧
    triples (List.replicate n (ObjLine.vertex "0 0 0".toList (⟨0, 0, 0⟩ : Vec3 Scalar))
      ++ [ObjLine.face 65536 1 1]) = [(65535, 0, 0)] ∧
    (∀ l ∈ List.replicate n (ObjLine.vertex "0 0 0".toList (⟨0, 0, 0⟩ : Vec3 Scalar))
      ++ [ObjLine.face 65536 1 1], l.WellFormed 65536) ∧
    (load_obj (some (objText (List.replicate n
        (ObjLine.vertex "0 0 0".toList (⟨0, 0, 0⟩ : Vec3 Scalar)) ++ [ObjLine.face 65536 1 1]))) [] [] [] :
      Except Fault (Mesh Scalar)) = .error .undefined := by
  have hlen : (positions (List.replicate n
      (ObjLine.vertex "0 0 0".toList (⟨0, 0, 0⟩ : Vec3 Scalar)) ++ [ObjLine.face 65536 1 1])).length = n := by
    rw [positions_append, positions_replicate_vertex]
    simp [positions]
  have htri : triples (List.replicate n
      (ObjLine.vertex "0 0 0".toList (⟨0, 0, 0⟩ : Vec3 Scalar)) ++ [ObjLine.face 65536 1 1])
      = [(65535, 0, 0)] := by
    clear hlen
    induction n with
    | zero => rfl
    | succ n ih => simpa [List.replicate_succ, triples] using ih
  have hvert : (ObjLine.vertex "0 0 0".toList (⟨0, 0, 0⟩ : Vec3 Scalar)).WellFormed 65536 :=
    ⟨by decide, extractsTo_zero⟩
  have hwf : ∀ l ∈ List.replicate n (ObjLine.vertex "0 0 0".toList (⟨0, 0, 0⟩ : Vec3 Scalar))
      ++ [ObjLine.face 65536 1 1], l.WellFormed 65536 := by
    intro l hl
    simp only [List.mem_append, List.mem_singleton] at hl
    rcases hl with hl | hl
    · rw [(List.mem_replicate.mp hl).2]
      exact hvert
    · rw [hl]
      exact ⟨⟨by decide, by decide⟩, ⟨by decide, by decide⟩, ⟨by decide, by decide⟩⟩
  refine ⟨hlen, htri, hwf, ?_⟩
  have hnl : ∀ l ∈ (List.replicate n (ObjLine.vertex "0 0 0".toList (⟨0, 0, 0⟩ : Vec3 Scalar))
      ++ [ObjLine.face 65536 1 1]).map ObjLine.text, '\n' ∉ l := by
    intro l hl
    obtain ⟨m, hm, rfl⟩ := List.mem_map.mp hl
    exact text_no_newline _ m (hwf m hm)
  have hfirst := parse_wellFormed 65536
    (List.replicate n (ObjLine.vertex "0 0 0".toList (⟨0, 0, 0⟩ : Vec3 Scalar)))
    (fun l hl => by
      rw [(List.mem_replicate.mp hl).2]
      exact ⟨hvert, trivial⟩) [] []
  have hface : ∀ st : List (Vec3 Scalar) × List Nat,
      processLine st (faceLine 65536 1 1) = .error .undefined :=
    fun st => processLine_face_error st (faceLine 65536 1 1) _ (by decide) (by decide)
  have hfold : ((List.replicate n (ObjLine.vertex "0 0 0".toList (⟨0, 0, 0⟩ : Vec3 Scalar))
      ++ [ObjLine.face 65536 1 1]).map ObjLine.text).foldlM processLine
      (([] : List (Vec3 Scalar)), ([] : List Nat)) = .error .undefined := by
    rw [List.map_append, List.foldlM_append, hfirst]
    simp only [List.map_cons, List.map_nil, List.foldlM_cons, ObjLine.text, bind, Except.bind,
      hface]
  rw [objText, load_obj_joinLines _ hnl, hfold]
  rfl

/-- C1 (as stated, refuted): the OBJ text with 65536 lines `v 0 0 0` followed by the line
`f 65536 1 1` is well-formed with `V = 65536` and `1 <= i,j,k <= V`, yet `load_obj` does not
return the triple `(65535, 0, 0)`: the index 65536 does not fit a `GLushort`, the extraction
fails, and the two later indices are used without having been assigned. -/
theorem load_obj_index_overflow :
    WellFormedObj overflowObj ∧ (positions overflowObj).length = 65536 ∧
    triples overflowObj = [(65535, 0, 0)] ∧
    extractUShort ⟨(faceLine 65536 1 1).drop 2, false⟩ = ⟨some 65535, ⟨" 1 1".toList, true⟩⟩ ∧
    extractUShort ⟨" 1 1".toList, true⟩ = ⟨none, ⟨" 1 1".toList, true⟩⟩ ∧
    (load_obj (some (objText overflowObj)) [] [] [] : Except Fault (Mesh Scalar))
      = .error .undefined := by
  obtain ⟨hlen, htri, hwf, hload⟩ := overflow_lines 65536
  refine ⟨?_, hlen, htri, by decide, by decide, hload⟩
  intro l hl
  rw [show (positions overflowObj).length = 65536 from hlen]
  exact hwf l hl

theorem foldlM_skip_line {F : Type} [FloatExtract F] (pre post : List (List Char))
    (line : List Char) (hv : line.take 2 ≠ ['v', ' ']) (hf : line.take 2 ≠ ['f', ' '])
    (st : List (Vec3 F) × List Nat) :
    (pre ++ line :: post).foldlM processLine st = (pre ++ post).foldlM processLine st := by
  rw [List.foldlM_append, List.foldlM_append]
  congr 1
  funext st1
  rw [List.foldlM_cons, processLine_other st1 line hv hf]
  rfl

/-- C4 (as stated, refuted): a face line listing four vertices is not ignored, `load_obj`
stores the triangle of its first three indices; a face line with negative indices is not
ignored either, the loop body stores the indices wrapped around modulo 65536. -/
theorem polygon_face_not_ignored :
    (∃ mesh, (load_obj (some "v 0 0 0\nv 1 0 0\nv 0 1 0\nv 1 1 0\nf 1 2 3 4\n".toList)
        [] [] [] : Except Fault (Mesh Scalar)) = .ok mesh ∧
      mesh.vertices = [⟨0, 0, 0⟩, ⟨1, 0, 0⟩, ⟨0, 1, 0⟩, ⟨1, 1, 0⟩] ∧
      mesh.triangles = [0, 1, 2]) ∧
    processLine (([] : List (Vec3 Scalar)), []) "f -1 -2 -3".toList
      = .ok ([], [65534, 65533, 65532]) := by
  constructor
  · have htext : "v 0 0 0\nv 1 0 0\nv 0 1 0\nv 1 1 0\nf 1 2 3 4\n".toList
        = joinLines ([ObjLine.vertex "0 0 0".toList (⟨0, 0, 0⟩ : Vec3 Scalar),
            .vertex "1 0 0".toList ⟨1, 0, 0⟩, .vertex "0 1 0".toList ⟨0, 1, 0⟩,
            .vertex "1 1 0".toList ⟨1, 1, 0⟩].map ObjLine.text
          ++ [faceLine 1 2 3 ++ " 4".toList]) := by decide
    have hnl : ∀ l ∈ [ObjLine.vertex "0 0 0".toList (⟨0, 0, 0⟩ : Vec3 Scalar),
            .vertex "1 0 0".toList ⟨1, 0, 0⟩, .vertex "0 1 0".toList ⟨0, 1, 0⟩,
            .vertex "1 1 0".toList ⟨1, 1, 0⟩].map ObjLine.text
          ++ [faceLine 1 2 3 ++ " 4".toList], '\n' ∉ l := by decide
    have hfirst := parse_wellFormed 4 [ObjLine.vertex "0 0 0".toList (⟨0, 0, 0⟩ : Vec3 Scalar),
        .vertex "1 0 0".toList ⟨1, 0, 0⟩, .vertex "0 1 0".toList ⟨0, 1, 0⟩,
        .vertex "1 1 0".toList ⟨1, 1, 0⟩]
      (by
        intro l hl
        simp only [List.mem_cons, List.mem_singleton, List.not_mem_nil, or_false] at hl
        rcases hl with rfl | rfl | rfl | rfl <;>
          exact ⟨⟨by decide, by
            simp [ExtractsTo, extractFloat, extractDecimal, isspace, isdigit, decimalValue,
        Scalar.zero_def, Scalar.one_def]⟩, trivial⟩)
      [] []
    have hface := processLine_face
      (([⟨0, 0, 0⟩, ⟨1, 0, 0⟩, ⟨0, 1, 0⟩, ⟨1, 1, 0⟩] : List (Vec3 Scalar)), ([] : List Nat))
      1 2 3 " 4".toList (by decide) (by decide) (by decide)
      (by intro c hc; cases hc; decide)
    obtain ⟨normals, hpass, _, _⟩ := normalPass_spec
      ([⟨0, 0, 0⟩, ⟨1, 0, 0⟩, ⟨0, 1, 0⟩, ⟨1, 1, 0⟩] : List (Vec3 Scalar)) [(0, 1, 2)]
      (by simp [InRange])
    refine ⟨⟨_, normals, _⟩, ?_, rfl, rfl⟩
    rw [htext, load_obj_joinLines _ hnl, List.foldlM_append, hfirst]
    simp only [List.foldlM_cons, List.foldlM_nil, bind, Except.bind, positions, triples,
      flattenTriangles, List.nil_append, hface, pure, Except.pure]
    have hdec : [decrement 1, decrement 2, decrement 3] = flattenTriangles [(0, 1, 2)] := by
      decide
    rw [hdec, hpass]
    rfl
  · decide

/-- C4 (amended): every input line whose first two characters are neither `v ` nor `f ` is
ignored by `load_obj`, it adds no vertex and no triangle: the result is the one for the file
without that line; this includes comment lines, `vn`/`vt` lines and material directives.  A
line that begins with `f ` is never ignored: a face line listing more than three vertices
adds the triangle of its first three indices. -/
theorem other_lines_ignored {F : Type} [Zero F] [Add F] [Sub F] [Mul F] [InverseSqrt F]
    [FloatExtract F] (pre post : List (List Char)) (line : List Char)
    (vertices normals : List (Vec3 F)) (triangles : List Nat)
    (hv : line.take 2 ≠ ['v', ' ']) (hf : line.take 2 ≠ ['f', ' '])
    (hline : '\n' ∉ line) (hpre : ∀ l ∈ pre, '\n' ∉ l) (hpost : ∀ l ∈ post, '\n' ∉ l) :
    load_obj (some (joinLines (pre ++ line :: post))) vertices normals triangles
      = load_obj (some (joinLines (pre ++ post))) vertices normals triangles ∧
    processLine (vertices, triangles) line = .ok (vertices, triangles) ∧
    (∀ rest : List Char,
      processLine (vertices, triangles) ('#' :: rest) = .ok (vertices, triangles) ∧
      processLine (vertices, triangles) ('v' :: 'n' :: rest) = .ok (vertices, triangles) ∧
      processLine (vertices, triangles) ('v' :: 't' :: rest) = .ok (vertices, triangles) ∧
      processLine (vertices, triangles) ("usemtl".toList ++ rest) = .ok (vertices, triangles) ∧
      processLine (vertices, triangles) ("mtllib".toList ++ rest)
        = .ok (vertices, triangles)) ∧
    (∀ (i j k : Nat) (more : List Char), 1 ≤ i → i ≤ 65535 → 1 ≤ j → j ≤ 65535 → 1 ≤ k →
      k ≤ 65535 →
      processLine (vertices, triangles) (faceLine i j k ++ ' ' :: more)
        = .ok (vertices, triangles ++ [i - 1, j - 1, k - 1])) ∧
    (∀ l : List Char, l.take 2 = ['f', ' '] →
      processLine (vertices, triangles) l ≠ .ok (vertices, triangles)) := by
  refine ⟨?_, processLine_other _ line hv hf, ?_, ?_, ?_⟩
  · have h1 : ∀ l ∈ pre ++ line :: post, '\n' ∉ l := by
      intro l hl
      rcases List.mem_append.mp hl with h | h
      · exact hpre l h
      · rcases List.mem_cons.mp h with h | h
        · rw [h]; exact hline
        · exact hpost l h
    have h2 : ∀ l ∈ pre ++ post, '\n' ∉ l := by
      intro l hl
      rcases List.mem_append.mp hl with h | h
      · exact hpre l h
      · exact hpost l h
    rw [load_obj_joinLines _ h1, load_obj_joinLines _ h2, foldlM_skip_line pre post line hv hf]
  · intro rest
    refine ⟨?_, ?_, ?_, ?_, ?_⟩ <;> apply processLine_other <;> simp
  · intro i j k more hi1 hi hj1 hj hk1 hk
    have h := processLine_face (vertices, triangles) i j k (' ' :: more) hi hj hk
      (by intro c hc; simp only [List.head?_cons, Option.some.injEq] at hc; rw [← hc]; decide)
    rw [h, decrement_pos i hi1 hi, decrement_pos j hj1 hj, decrement_pos k hk1 hk]
  · intro l hl heq
    have := (processLine_face_grows (vertices, triangles) (vertices, triangles) l hl heq).2
    simp at this

theorem other_lines_ignored_witness :
    "# a comment".toList.take 2 ≠ ['v', ' '] ∧ "# a comment".toList.take 2 ≠ ['f', ' '] ∧
    (load_obj (some (joinLines (["v 0 0 0".toList] ++ "# a comment".toList ::
        ["vn 0 0 1".toList]))) [] [] [] : Except Fault (Mesh Scalar))
      = load_obj (some (joinLines (["v 0 0 0".toList] ++ ["vn 0 0 1".toList]))) [] [] [] ∧
    processLine (([] : List (Vec3 Scalar)), []) "# a comment".toList = .ok ([], []) ∧
    processLine (([] : List (Vec3 Scalar)), []) (faceLine 1 2 3 ++ ' ' :: "4 5".toList)
      = .ok ([], [] ++ [1 - 1, 2 - 1, 3 - 1]) :=
  ⟨by decide, by decide,
   (other_lines_ignored ["v 0 0 0".toList] ["vn 0 0 1".toList] "# a comment".toList
      ([] : List (Vec3 Scalar)) [] [] (by decide) (by decide) (by decide) (by decide) (by decide)).1,
   (other_lines_ignored ["v 0 0 0".toList] ["vn 0 0 1".toList] "# a comment".toList
      ([] : List (Vec3 Scalar)) [] [] (by decide) (by decide) (by decide) (by decide)
      (by decide)).2.1,
   (other_lines_ignored ["v 0 0 0".toList] ["vn 0 0 1".toList] "# a comment".toList
      ([] : List (Vec3 Scalar)) [] [] (by decide) (by decide) (by decide) (by decide)
      (by decide)).2.2.2.1 1 2 3 "4 5".toList (by decide) (by decide) (by decide) (by decide)
      (by decide) (by decide)⟩

end DisplayOBJ


